import Mathlib

/-!
Verification development for the scipybiteopt repository.

The development shallowly embeds the two C++ source files:

* `tester.h` — the benchmarking/statistics engine (`CTester`, `CTester::CTestOpt`):
  trial protocol, success/reject classification, per-function and aggregate
  statistics.
* `scipybiteopt/biteopt_py_ext.cpp` — the host-binding `minimize_func` entry
  point: bounds validation before a single `biteopt_minimize` invocation.

Modelling conventions:

* C `double` values are modelled as exact rationals `ℚ`; floating-point
  rounding is outside the scope of the embedded claims.
* A division whose denominator can be a zero trial count is modelled by
  `safeDiv`, whose `none` result stands for the non-finite (NaN/inf) `double`
  produced by the C code's unguarded division.
* The external black-box collaborators (the optimizer `CBEOOptimizerFan`
  from bitefan.h, the random generator `CBEORnd`, libm's `sqrt`, and the
  `__rdtsc` tick counter) are not part of the repository's two source files;
  they are abstracted as the parameter bundle `OptModel`:
  - `rv` is the stream of values produced by the single shared `rnd`
    generator (`rnd.getRndValue()` at position `rc` yields `rv rc` and
    advances to `rc + 1`);
  - `oinit`/`ostep`/`obest` model `opt->init(rnd)`, `opt->optimize(rnd)` and
    `opt->getBestCost()`; they receive the objective (and `oinit` the bounds
    computed by the adapter, read once per trial before reinitialization)
    and may advance the random stream arbitrarily;
  - `tk n` is the `__rdtsc` delta bracketing the n-th optimizer step of the
    run; `tc` accumulates it with `uint64_t` wrap-around (mod 2^64);
  - `msqrt` models libm's `sqrt` in the RMS statistic.
* C `int` loop counts (`IterCount`, `InnerIterCount`, dimensions) are `ℕ`:
  a non-positive C value makes every `for` loop in the source run zero
  times, which coincides with the value 0.
* `printf` output (`DoPrint`) has no effect on any computed statistic and is
  omitted.
-/

/-- Test function descriptor, from struct CTestFn (testfn.h interface as
consumed by tester.h): name, dimensionality (0 = variable, resolved with the
run's default), range bounds, known optimal value, and the cost function. -/
structure CTestFn where
  Name : String
  Dims : ℕ
  RangeMin : ℚ
  RangeMax : ℚ
  OptValue : ℚ
  Calc : List ℚ → ℚ

/-- Benchmark configuration, from the parameters of CTester::init. -/
structure Cfg where
  DefDims : ℕ
  CostThreshold : ℚ
  IterCount : ℕ
  InnerIterCount : ℕ
  DoRandomize : Bool

/-- Run-wide mutable counters threaded through CTester::run: position in the
shared random stream, global optimizer-step counter, and the accumulated
tick total tc (a uint64_t, kept reduced mod 2^64). -/
structure RunSt where
  rc : ℕ
  sc : ℕ
  tc : ℕ
deriving Repr, DecidableEq

/-- Outcome of one trial: success at step i with best cost c, or rejection
with best cost c after the step budget is exhausted. -/
inductive TrialOut
  | success (i : ℕ) (c : ℚ)
  | reject (c : ℚ)
deriving Repr, DecidableEq

/-- Per-function accumulators of CTester::run: AvgCost (success cost sum),
AvgRjCost (reject cost sum), AvgIter (success step-count sum), Rej (reject
count), and the Iters array in trial order (step count, or -1 on reject). -/
structure FnAcc where
  AvgCost : ℚ
  AvgRjCost : ℚ
  AvgIter : ℚ
  Rej : ℕ
  Iters : List ℤ
deriving Repr, DecidableEq

/-- The all-zero accumulator each function starts from. -/
def emptyAcc : FnAcc := ⟨0, 0, 0, 0, []⟩

/-- Division guarded against a zero trial-count denominator: none models the
non-finite double (NaN or inf) the C code produces when it divides by an
int that is 0. -/
def safeDiv (x : ℚ) (n : ℕ) : Option ℚ :=
  if n = 0 then none else some (x / (n : ℚ))

/-- Statistics computed for one function at the end of its trial loop. -/
structure FnStats where
  Avg : ℚ
  RMS : ℚ
  RejRate : ℚ
  AvgCostS : Option ℚ
  AvgRjCostS : Option ℚ
  Rej : ℕ
  Iters : List ℤ

/-- Result of a whole run: per-function statistics in corpus order, the
aggregate statistics ItAvg/ItRtAvg/RjAvg (none models the non-finite value
of a division by FnCount = 0), the total tick count, and the final run
counters. -/
structure RunOut where
  stats : List FnStats
  ItAvg : Option ℚ
  ItRtAvg : Option ℚ
  RjAvg : Option ℚ
  tc : ℕ
  fin : RunSt

/-- Abstract model of the external collaborators of tester.h (see the file
header): the black-box optimizer over internal state σ, the shared random
stream, the tick stream and the square root. -/
structure OptModel (σ : Type) where
  oinit : (List ℚ → ℚ) → List ℚ → List ℚ → ℕ → σ × ℕ
  ostep : (List ℚ → ℚ) → σ → ℕ → σ × ℕ
  obest : σ → ℚ
  rv : ℕ → ℚ
  tk : ℕ → ℕ
  msqrt : ℚ → ℚ

/-- CTestOpt::getMinValues (tester.h lines 55-74): with randomization, entry
i is RangeMin scaled by 0.5 + rnd()*0.5 with one independent draw per
dimension (stream positions rc, rc+1, ...); without, every entry is
RangeMin. Returns the output vector and the advanced stream position. -/
def getMinValues (rv : ℕ → ℚ) (doRand : Bool) (dims : ℕ) (rangeMin : ℚ)
    (rc : ℕ) : List ℚ × ℕ :=
  if doRand then
    ((List.range dims).map (fun i => rangeMin * (1/2 + rv (rc + i) * (1/2))),
      rc + dims)
  else
    (List.replicate dims rangeMin, rc)

/-- CTestOpt::getMaxValues (tester.h lines 76-95): same as getMinValues with
RangeMax. -/
def getMaxValues (rv : ℕ → ℚ) (doRand : Bool) (dims : ℕ) (rangeMax : ℚ)
    (rc : ℕ) : List ℚ × ℕ :=
  if doRand then
    ((List.range dims).map (fun i => rangeMax * (1/2 + rv (rc + i) * (1/2))),
      rc + dims)
  else
    (List.replicate dims rangeMax, rc)

/-- CTestOpt::optcost (tester.h lines 97-107): tp[i] = p[i] * signs[i] for
every dimension, then the function's Calc on tp. -/
def optcost (fcalc : List ℚ → ℚ) (signs : List ℚ) (p : List ℚ) : ℚ :=
  fcalc (List.zipWith (fun a b => a * b) p signs)

/-- Sign drawing of CTester::run lines 216-220: one independent draw per
dimension, +1 when rnd() < 0.5 and -1 otherwise. Returns the sign vector
and the advanced stream position. -/
def drawSigns (rv : ℕ → ℚ) (dims : ℕ) (rc : ℕ) : List ℚ × ℕ :=
  ((List.range dims).map (fun i => if rv (rc + i) < 1/2 then (1 : ℚ) else -1),
    rc + dims)

/-- One opt->optimize(rnd) call bracketed by __rdtsc (tester.h lines
228-230): steps the optimizer state, advances the random stream as the
optimizer dictates, increments the global step counter and accumulates the
tick delta mod 2^64. -/
def stepOnce {σ : Type} (M : OptModel σ) (obj : List ℚ → ℚ)
    (p : σ × RunSt) : σ × RunSt :=
  let q := M.ostep obj p.1 p.2.rc
  (q.1, ⟨q.2, p.2.sc + 1, (p.2.tc + M.tk p.2.sc) % 2 ^ 64⟩)

/-- Iterated stepOnce: the optimizer trajectory of one trial. -/
def stepN {σ : Type} (M : OptModel σ) (obj : List ℚ → ℚ)
    (p : σ × RunSt) : ℕ → σ × RunSt
  | 0 => p
  | n + 1 => stepOnce M obj (stepN M obj p n)

/-- Best cost reported after n optimizer steps of a trial. -/
def bestAt {σ : Type} (M : OptModel σ) (obj : List ℚ → ℚ)
    (p : σ × RunSt) (n : ℕ) : ℚ :=
  M.obest (stepN M obj p n).1

/-- The inner while(true) loop of CTester::run (lines 226-250): step, then
i++, then the success test (getBestCost() - OptValue < CostThreshold), then
the exhaustion test (i == InnerIterCount). The fuel argument makes the
recursion structural; none means the loop did not break within the fuel
(the C loop with InnerIterCount <= 0 can spin forever). Entered with fuel =
InnerIterCount and i = 0, which is exact for InnerIterCount >= 1. -/
def innerLoop {σ : Type} (M : OptModel σ) (obj : List ℚ → ℚ)
    (optVal thr : ℚ) (innerIter : ℕ) :
    ℕ → ℕ → σ × RunSt → Option (TrialOut × RunSt)
  | 0, _, _ => none
  | fuel + 1, i, p =>
    if M.obest (stepOnce M obj p).1 - optVal < thr then
      some (.success (i + 1) (M.obest (stepOnce M obj p).1),
        (stepOnce M obj p).2)
    else if i + 1 = innerIter then
      some (.reject (M.obest (stepOnce M obj p).1), (stepOnce M obj p).2)
    else
      innerLoop M obj optVal thr innerIter fuel (i + 1) (stepOnce M obj p)

/-- Trial preamble of CTester::run (lines 212-224): draw the signs when
randomization is on (otherwise use the per-function vector signs0 set once
at lines 204-210), read the adapter's bounds once, reinitialize the
optimizer (opt->init(rnd)). Returns the trial's fixed objective and the
starting point of the optimizer trajectory. -/
def trialStart {σ : Type} (M : OptModel σ) (doRand : Bool) (fn : CTestFn)
    (dims : ℕ) (signs0 : List ℚ) (s : RunSt) :
    (List ℚ → ℚ) × (σ × RunSt) :=
  let sp := if doRand then drawSigns M.rv dims s.rc else (signs0, s.rc)
  let lo := getMinValues M.rv doRand dims fn.RangeMin sp.2
  let hi := getMaxValues M.rv doRand dims fn.RangeMax lo.2
  let obj := optcost fn.Calc sp.1
  let q := M.oinit obj lo.1 hi.1 hi.2
  (obj, (q.1, ⟨q.2, s.sc, s.tc⟩))

/-- One trial of CTester::run (lines 212-251): the preamble followed by the
inner loop. -/
def runTrial {σ : Type} (M : OptModel σ) (doRand : Bool) (fn : CTestFn)
    (dims : ℕ) (signs0 : List ℚ) (thr : ℚ) (innerIter : ℕ)
    (s : RunSt) : Option (TrialOut × RunSt) :=
  let t := trialStart M doRand fn dims signs0 s
  innerLoop M t.1 fn.OptValue thr innerIter innerIter 0 t.2

/-- Per-trial bookkeeping of CTester::run: on success (lines 236-241) add the
best cost to AvgCost, record Iters[j] = i and add i to AvgIter; on rejection
(lines 243-249) add the best cost to AvgRjCost, increment Rej and record
Iters[j] = -1. -/
def accUpdate (acc : FnAcc) : TrialOut → FnAcc
  | .success i c =>
    { acc with AvgCost := acc.AvgCost + c, AvgIter := acc.AvgIter + (i : ℚ),
               Iters := acc.Iters ++ [(i : ℤ)] }
  | .reject c =>
    { acc with AvgRjCost := acc.AvgRjCost + c, Rej := acc.Rej + 1,
               Iters := acc.Iters ++ [(-1 : ℤ)] }

/-- The trial loop for j = 0 .. IterCount-1 of CTester::run (lines 212-251),
by recursion on the number of remaining trials. -/
def trialsLoop {σ : Type} (M : OptModel σ) (doRand : Bool) (fn : CTestFn)
    (dims : ℕ) (signs0 : List ℚ) (thr : ℚ) (innerIter : ℕ) :
    ℕ → FnAcc → RunSt → Option (FnAcc × RunSt)
  | 0, acc, s => some (acc, s)
  | j + 1, acc, s =>
    match runTrial M doRand fn dims signs0 thr innerIter s with
    | none => none
    | some (out, s') =>
      trialsLoop M doRand fn dims signs0 thr innerIter j (accUpdate acc out) s'

/-- Per-function statistics of CTester::run lines 253-289: the unguarded
divisions AvgCost /= (IterCount - Rej) and AvgRjCost /= Rej (modelled with
safeDiv, none = non-finite double); the sentinel branch Avg = RMS = 1000000
when Rej >= IterCount; otherwise Avg = AvgIter / (IterCount - Rej) and RMS
the square root of the mean squared deviation over the non-negative Iters
entries; and the reject rate Rej / IterCount accumulated at line 289. -/
def fnStats (msqrt : ℚ → ℚ) (iterCount : ℕ) (acc : FnAcc) : FnStats :=
  let succ := iterCount - acc.Rej
  let avgCost := safeDiv acc.AvgCost succ
  let avgRjCost := safeDiv acc.AvgRjCost acc.Rej
  let rejRate := (acc.Rej : ℚ) / (iterCount : ℚ)
  if iterCount ≤ acc.Rej then
    { Avg := 1000000, RMS := 1000000, RejRate := rejRate,
      AvgCostS := avgCost, AvgRjCostS := avgRjCost,
      Rej := acc.Rej, Iters := acc.Iters }
  else
    let a := acc.AvgIter / (succ : ℚ)
    let rsum := (acc.Iters.filter (fun v => decide (0 ≤ v))).foldl
      (fun r v => r + ((v : ℚ) - a) * ((v : ℚ) - a)) 0
    { Avg := a, RMS := msqrt (rsum / (succ : ℚ)), RejRate := rejRate,
      AvgCostS := avgCost, AvgRjCostS := avgRjCost,
      Rej := acc.Rej, Iters := acc.Iters }

/-- Processing of one function in CTester::run (lines 188-289): resolve the
dimensionality (Dims == 0 uses the run default), set the non-randomized
sign vector to all ones once for the function, run the trials, then compute
the statistics. -/
def runFn {σ : Type} (M : OptModel σ) (cfg : Cfg) (fn : CTestFn)
    (s : RunSt) : Option (FnStats × RunSt) :=
  let dims := if fn.Dims = 0 then cfg.DefDims else fn.Dims
  let signs0 := List.replicate dims (1 : ℚ)
  match trialsLoop M cfg.DoRandomize fn dims signs0 cfg.CostThreshold
      cfg.InnerIterCount cfg.IterCount emptyAcc s with
  | none => none
  | some (acc, s') => some (fnStats M.msqrt cfg.IterCount acc, s')

/-- The corpus loop for k = 0 .. FnCount-1 of CTester::run. -/
def runCorpus {σ : Type} (M : OptModel σ) (cfg : Cfg) :
    List CTestFn → RunSt → Option (List FnStats × RunSt)
  | [], s => some ([], s)
  | fn :: rest, s =>
    match runFn M cfg fn s with
    | none => none
    | some (st, s') =>
      match runCorpus M cfg rest s' with
      | none => none
      | some (sts, s2) => some (st :: sts, s2)

/-- CTester::run in full (lines 179-309): counters start at zero (ItAvg =
ItRtAvg = RjAvg = 0, tc = 0) with the random stream at position rc0; every
function is processed in corpus order; the aggregate accumulations ItAvg +=
Avg, ItRtAvg += RMS / Avg, RjAvg += Rej / IterCount are folded in corpus
order and finally divided by FnCount (lines 287-294, safeDiv modelling the
division by a zero function count). -/
def runBench {σ : Type} (M : OptModel σ) (cfg : Cfg) (corpus : List CTestFn)
    (rc0 : ℕ) : Option RunOut :=
  match runCorpus M cfg corpus ⟨rc0, 0, 0⟩ with
  | none => none
  | some (sts, s) =>
    some { stats := sts,
           ItAvg := safeDiv (sts.foldl (fun r t => r + t.Avg) 0) sts.length,
           ItRtAvg := safeDiv (sts.foldl (fun r t => r + t.RMS / t.Avg) 0)
             sts.length,
           RjAvg := safeDiv (sts.foldl (fun r t => r + t.RejRate) 0)
             sts.length,
           tc := s.tc,
           fin := s }

/-- Bounds validation and dispatch of minimize_func
(biteopt_py_ext.cpp lines 66-103), after the argument lists have been
parsed into numeric vectors: a length mismatch or some lower[i] > upper[i]
reports a TypeError and returns before biteopt_minimize is called;
otherwise biteopt_minimize is invoked exactly once. The model counts the
biteopt_minimize invocations (second component), and bopt abstracts the
optimizer run (returning min_f and best_x). -/
def minimize_func (bopt : ℕ → List ℚ → List ℚ → ℚ × List ℚ)
    (lower upper : List ℚ) : Except String (ℚ × List ℚ) × ℕ :=
  if lower.length ≠ upper.length then
    (.error "minimize: matching list lengths required", 0)
  else if (List.zip lower upper).any (fun q => decide (q.2 < q.1)) then
    (.error "minimize: lower should not be greater than upper", 0)
  else
    (.ok (bopt lower.length lower upper), 1)

/-- Concrete optimizer model for witnesses: trivial state, best cost always
0 (an optimizer that sits on the optimum), no random consumption, zero
ticks. -/
def unitModel : OptModel Unit :=
  { oinit := fun _ _ _ rc => ((), rc),
    ostep := fun _ _ rc => ((), rc),
    obest := fun _ => 0,
    rv := fun _ => 0,
    tk := fun _ => 0,
    msqrt := fun q => q }

/-- Concrete optimizer model for witnesses: best cost stuck at 1 (an
optimizer that never improves), one tick per step. -/
def stuckModel : OptModel Unit :=
  { oinit := fun _ _ _ rc => ((), rc),
    ostep := fun _ _ rc => ((), rc),
    obest := fun _ => 1,
    rv := fun _ => 0,
    tk := fun _ => 1,
    msqrt := fun q => q }

/-- unitModel under a different hardware clock: identical optimizer, random
stream and square root, but every __rdtsc delta is 1 instead of 0. Two runs
of the same binary see exactly this kind of variation. -/
def tickModel : OptModel Unit :=
  { unitModel with tk := fun _ => 1 }

/-- Concrete one-dimensional sphere test function for witnesses. -/
def sphere1 : CTestFn :=
  { Name := "sphere", Dims := 1, RangeMin := -10, RangeMax := 10,
    OptValue := 0, Calc := fun p => p.foldl (fun r x => r + x * x) 0 }

/-- sphere1 with variable dimensionality (Dims = 0, resolved from the run
default). -/
def sphereVar : CTestFn :=
  { sphere1 with Dims := 0 }

/-! ## Basic lemmas about the embedding -/

/-- Reading a range-indexed map at a valid position yields the generator. -/
theorem getD_range_map (f : ℕ → ℚ) {dims i : ℕ} (h : i < dims) :
    ((List.range dims).map f).getD i 0 = f i := by
  rw [List.getD_eq_getElem?_getD, List.getElem?_map, List.getElem?_range h]
  rfl

/-- Reading a replicate at a valid position yields the replicated value. -/
theorem getD_replicate_val (a : ℚ) {dims i : ℕ} (h : i < dims) :
    (List.replicate dims a).getD i 0 = a := by
  rw [List.getD_eq_getElem?_getD, List.getElem?_replicate]
  simp [h]

/-- The trial trajectory can be unrolled from the front. -/
theorem stepN_succ_front {σ : Type} (M : OptModel σ) (obj : List ℚ → ℚ)
    (p : σ × RunSt) (n : ℕ) :
    stepN M obj p (n + 1) = stepN M obj (stepOnce M obj p) n := by
  induction n with
  | zero => rfl
  | succ k ih =>
    show stepOnce M obj (stepN M obj p (k + 1)) = _
    rw [ih]
    rfl

/-- One unfolding of the inner loop at positive fuel. -/
theorem innerLoop_succ {σ : Type} (M : OptModel σ) (obj : List ℚ → ℚ)
    (optVal thr : ℚ) (innerIter fuel i : ℕ) (p : σ × RunSt) :
    innerLoop M obj optVal thr innerIter (fuel + 1) i p =
      if M.obest (stepOnce M obj p).1 - optVal < thr then
        some (.success (i + 1) (M.obest (stepOnce M obj p).1),
          (stepOnce M obj p).2)
      else if i + 1 = innerIter then
        some (.reject (M.obest (stepOnce M obj p).1), (stepOnce M obj p).2)
      else
        innerLoop M obj optVal thr innerIter fuel (i + 1)
          (stepOnce M obj p) := rfl

/-- If the success condition first holds after n steps (1 <= n <= fuel, and
the loop counter has fuel iterations left before reaching innerIter), the
inner loop stops there with a success outcome carrying the step index and
the best cost reported at that step. -/
theorem innerLoop_eq_success {σ : Type} (M : OptModel σ) (obj : List ℚ → ℚ)
    (optVal thr : ℚ) (innerIter : ℕ) :
    ∀ (fuel i : ℕ) (p : σ × RunSt) (n : ℕ),
      0 < n → n ≤ fuel → i + fuel = innerIter →
      M.obest (stepN M obj p n).1 - optVal < thr →
      (∀ m, 0 < m → m < n → ¬(M.obest (stepN M obj p m).1 - optVal < thr)) →
      innerLoop M obj optVal thr innerIter fuel i p =
        some (.success (i + n) (M.obest (stepN M obj p n).1),
          (stepN M obj p n).2) := by
  intro fuel
  induction fuel with
  | zero => intro i p n hn hnf _ _ _; omega
  | succ f ih =>
    intro i p n hn hnf hsum hc hmin
    cases n with
    | zero => omega
    | succ k =>
      cases k with
      | zero =>
        have h1 : stepN M obj p 1 = stepOnce M obj p := rfl
        rw [h1] at hc ⊢
        rw [innerLoop_succ, if_pos hc]
      | succ k2 =>
        have hnot1 : ¬(M.obest (stepOnce M obj p).1 - optVal < thr) := by
          have := hmin 1 (by omega) (by omega)
          simpa [stepN] using this
        have hne : ¬(i + 1 = innerIter) := by omega
        rw [innerLoop_succ, if_neg hnot1, if_neg hne]
        have hidx : i + (k2 + 1 + 1) = i + 1 + (k2 + 1) := by omega
        rw [hidx, stepN_succ_front]
        exact ih (i + 1) (stepOnce M obj p) (k2 + 1) (by omega) (by omega)
          (by omega) (by rw [← stepN_succ_front]; exact hc)
          (fun m hm hmk => by
            rw [← stepN_succ_front]
            exact hmin (m + 1) (by omega) (by omega))

/-- If the success condition fails at every step 1 .. fuel (with the loop
counter fuel iterations before innerIter), the inner loop exhausts the step
budget and stops with a reject outcome carrying the final best cost. -/
theorem innerLoop_eq_reject {σ : Type} (M : OptModel σ) (obj : List ℚ → ℚ)
    (optVal thr : ℚ) (innerIter : ℕ) :
    ∀ (fuel i : ℕ) (p : σ × RunSt),
      0 < fuel → i + fuel = innerIter →
      (∀ m, 0 < m → m ≤ fuel → ¬(M.obest (stepN M obj p m).1 - optVal < thr)) →
      innerLoop M obj optVal thr innerIter fuel i p =
        some (.reject (M.obest (stepN M obj p fuel).1),
          (stepN M obj p fuel).2) := by
  intro fuel
  induction fuel with
  | zero => intro i p h _ _; omega
  | succ f ih =>
    intro i p hf hsum hmin
    have hnot1 : ¬(M.obest (stepOnce M obj p).1 - optVal < thr) := by
      have := hmin 1 (by omega) (by omega)
      simpa [stepN] using this
    cases f with
    | zero =>
      have heq : i + 1 = innerIter := by omega
      have h1 : stepN M obj p 1 = stepOnce M obj p := rfl
      rw [h1]
      rw [innerLoop_succ, if_neg hnot1, if_pos heq]
    | succ g =>
      have hne : ¬(i + 1 = innerIter) := by omega
      rw [innerLoop_succ, if_neg hnot1, if_neg hne]
      have hrec := ih (i + 1) (stepOnce M obj p) (by omega) (by omega) ?_
      · rw [hrec, ← stepN_succ_front]
      · intro m hm hmg
        rw [← stepN_succ_front]
        exact hmin (m + 1) (by omega) (by omega)

/-- Unfolding of runTrial through trialStart. -/
theorem runTrial_def {σ : Type} (M : OptModel σ) (doRand : Bool)
    (fn : CTestFn) (dims : ℕ) (signs0 : List ℚ) (thr : ℚ) (innerIter : ℕ)
    (s : RunSt) :
    runTrial M doRand fn dims signs0 thr innerIter s =
      innerLoop M (trialStart M doRand fn dims signs0 s).1 fn.OptValue thr
        innerIter innerIter 0 (trialStart M doRand fn dims signs0 s).2 := rfl

/-- Unfolding of bestAt. -/
theorem bestAt_def {σ : Type} (M : OptModel σ) (obj : List ℚ → ℚ)
    (p : σ × RunSt) (n : ℕ) :
    bestAt M obj p n = M.obest (stepN M obj p n).1 := rfl

/-- The inner loop always stops within its fuel when the fuel matches the
remaining distance to innerIter. -/
theorem innerLoop_isSome {σ : Type} (M : OptModel σ) (obj : List ℚ → ℚ)
    (optVal thr : ℚ) (innerIter : ℕ) :
    ∀ (fuel i : ℕ) (p : σ × RunSt),
      0 < fuel → i + fuel = innerIter →
      ∃ r, innerLoop M obj optVal thr innerIter fuel i p = some r := by
  intro fuel
  induction fuel with
  | zero => intro i p h _; omega
  | succ f ih =>
    intro i p _ hsum
    by_cases h1 : M.obest (stepOnce M obj p).1 - optVal < thr
    · exact ⟨(.success (i + 1) (M.obest (stepOnce M obj p).1),
        (stepOnce M obj p).2), by rw [innerLoop_succ, if_pos h1]⟩
    · by_cases h2 : i + 1 = innerIter
      · exact ⟨(.reject (M.obest (stepOnce M obj p).1), (stepOnce M obj p).2),
          by rw [innerLoop_succ, if_neg h1, if_pos h2]⟩
      · have hf : 0 < f := by omega
        obtain ⟨r, hr⟩ := ih (i + 1) (stepOnce M obj p) hf (by omega)
        exact ⟨r, by rw [innerLoop_succ, if_neg h1, if_neg h2]; exact hr⟩

/-- Every run of a trial is classified in exactly one of two ways: a success
at the first step n in [1, innerIter] whose reported best cost is within the
threshold of the known optimum, or a rejection after all innerIter steps
failed the test. -/
theorem runTrial_cases {σ : Type} (M : OptModel σ) (doRand : Bool)
    (fn : CTestFn) (dims : ℕ) (signs0 : List ℚ) (thr : ℚ) (innerIter : ℕ)
    (s : RunSt) (h : 1 ≤ innerIter) :
    (∃ n, 1 ≤ n ∧ n ≤ innerIter ∧
      bestAt M (trialStart M doRand fn dims signs0 s).1
        (trialStart M doRand fn dims signs0 s).2 n - fn.OptValue < thr ∧
      (∀ m, 1 ≤ m → m < n →
        ¬(bestAt M (trialStart M doRand fn dims signs0 s).1
            (trialStart M doRand fn dims signs0 s).2 m - fn.OptValue < thr)) ∧
      runTrial M doRand fn dims signs0 thr innerIter s =
        some (.success n (bestAt M (trialStart M doRand fn dims signs0 s).1
            (trialStart M doRand fn dims signs0 s).2 n),
          (stepN M (trialStart M doRand fn dims signs0 s).1
            (trialStart M doRand fn dims signs0 s).2 n).2))
    ∨ ((∀ m, 1 ≤ m → m ≤ innerIter →
        ¬(bestAt M (trialStart M doRand fn dims signs0 s).1
            (trialStart M doRand fn dims signs0 s).2 m - fn.OptValue < thr)) ∧
      runTrial M doRand fn dims signs0 thr innerIter s =
        some (.reject (bestAt M (trialStart M doRand fn dims signs0 s).1
            (trialStart M doRand fn dims signs0 s).2 innerIter),
          (stepN M (trialStart M doRand fn dims signs0 s).1
            (trialStart M doRand fn dims signs0 s).2 innerIter).2)) := by
  classical
  set t := trialStart M doRand fn dims signs0 s with ht
  by_cases hex : ∃ n, (1 ≤ n ∧ n ≤ innerIter) ∧
      bestAt M t.1 t.2 n - fn.OptValue < thr
  · left
    set n0 := Nat.find hex with hn0def
    obtain ⟨⟨hn1, hn2⟩, hncond⟩ := Nat.find_spec hex
    refine ⟨n0, hn1, hn2, hncond, ?_, ?_⟩
    · intro m hm hmn
      intro hcond
      have := Nat.find_min hex hmn
      exact this ⟨⟨hm, by omega⟩, hcond⟩
    · rw [runTrial_def, ← ht]
      have := innerLoop_eq_success M t.1 fn.OptValue thr innerIter innerIter 0
        t.2 n0 (by omega) hn2 (by omega) hncond ?_
      · rw [this, Nat.zero_add]
        rfl
      · intro m hm hmn
        intro hcond
        have := Nat.find_min hex hmn
        exact this ⟨⟨hm, by omega⟩, hcond⟩
  · right
    push_neg at hex
    have hall : ∀ m, 1 ≤ m → m ≤ innerIter →
        ¬(bestAt M t.1 t.2 m - fn.OptValue < thr) := by
      intro m hm hmi
      exact not_lt.mpr (hex m ⟨hm, hmi⟩)
    refine ⟨hall, ?_⟩
    rw [runTrial_def, ← ht]
    exact innerLoop_eq_reject M t.1 fn.OptValue thr innerIter innerIter 0 t.2
      (by omega) (by omega) (fun m hm hmi => hall m hm hmi)

/-- The trial always terminates when innerIter is at least 1. -/
theorem runTrial_isSome {σ : Type} (M : OptModel σ) (doRand : Bool)
    (fn : CTestFn) (dims : ℕ) (signs0 : List ℚ) (thr : ℚ) (innerIter : ℕ)
    (s : RunSt) (h : 1 ≤ innerIter) :
    ∃ r, runTrial M doRand fn dims signs0 thr innerIter s = some r := by
  rw [runTrial_def]
  exact innerLoop_isSome M _ fn.OptValue thr innerIter innerIter 0 _
    (by omega) (by omega)

/-- Invariant tying the accumulated tick counter to the sum of the per-step
tick deltas over all optimizer steps performed so far (uint64 wrap-around
kept explicit). -/
def ticksOK {σ : Type} (M : OptModel σ) (s : RunSt) : Prop :=
  s.tc = (∑ n ∈ Finset.range s.sc, M.tk n) % 2 ^ 64

/-- One optimizer step preserves the tick invariant. -/
theorem stepOnce_ticksOK {σ : Type} (M : OptModel σ) (obj : List ℚ → ℚ)
    (p : σ × RunSt) (h : ticksOK M p.2) :
    ticksOK M (stepOnce M obj p).2 := by
  unfold ticksOK at h ⊢
  show (p.2.tc + M.tk p.2.sc) % 2 ^ 64 =
    (∑ n ∈ Finset.range (p.2.sc + 1), M.tk n) % 2 ^ 64
  rw [h, Finset.sum_range_succ, Nat.mod_add_mod]

/-- The whole inner loop preserves the tick invariant. -/
theorem innerLoop_ticksOK {σ : Type} (M : OptModel σ) (obj : List ℚ → ℚ)
    (optVal thr : ℚ) (innerIter : ℕ) :
    ∀ (fuel i : ℕ) (p : σ × RunSt) (r : TrialOut × RunSt),
      innerLoop M obj optVal thr innerIter fuel i p = some r →
      ticksOK M p.2 → ticksOK M r.2 := by
  intro fuel
  induction fuel with
  | zero => intro i p r h; simp [innerLoop] at h
  | succ f ih =>
    intro i p r h ht
    rw [innerLoop_succ] at h
    by_cases h1 : M.obest (stepOnce M obj p).1 - optVal < thr
    · rw [if_pos h1] at h
      cases h
      exact stepOnce_ticksOK M obj p ht
    · rw [if_neg h1] at h
      by_cases h2 : i + 1 = innerIter
      · rw [if_pos h2] at h
        cases h
        exact stepOnce_ticksOK M obj p ht
      · rw [if_neg h2] at h
        exact ih (i + 1) (stepOnce M obj p) r h (stepOnce_ticksOK M obj p ht)

/-- The trial preamble does not touch the step or tick counters. -/
theorem trialStart_ticksOK {σ : Type} (M : OptModel σ) (doRand : Bool)
    (fn : CTestFn) (dims : ℕ) (signs0 : List ℚ) (s : RunSt)
    (h : ticksOK M s) :
    ticksOK M (trialStart M doRand fn dims signs0 s).2.2 := h

/-- A whole trial preserves the tick invariant. -/
theorem runTrial_ticksOK {σ : Type} (M : OptModel σ) (doRand : Bool)
    (fn : CTestFn) (dims : ℕ) (signs0 : List ℚ) (thr : ℚ) (innerIter : ℕ)
    (s : RunSt) (r : TrialOut × RunSt)
    (hr : runTrial M doRand fn dims signs0 thr innerIter s = some r)
    (h : ticksOK M s) : ticksOK M r.2 := by
  rw [runTrial_def] at hr
  exact innerLoop_ticksOK M _ fn.OptValue thr innerIter innerIter 0 _ r hr
    (trialStart_ticksOK M doRand fn dims signs0 s h)

/-- One unfolding of the trial loop at a positive trial count. -/
theorem trialsLoop_succ {σ : Type} (M : OptModel σ) (doRand : Bool)
    (fn : CTestFn) (dims : ℕ) (signs0 : List ℚ) (thr : ℚ) (innerIter j : ℕ)
    (acc : FnAcc) (s : RunSt) :
    trialsLoop M doRand fn dims signs0 thr innerIter (j + 1) acc s =
      match runTrial M doRand fn dims signs0 thr innerIter s with
      | none => none
      | some (out, s') =>
        trialsLoop M doRand fn dims signs0 thr innerIter j
          (accUpdate acc out) s' := rfl

/-- The trial loop terminates and preserves the tick invariant when
innerIter is at least 1. -/
theorem trialsLoop_props {σ : Type} (M : OptModel σ) (doRand : Bool)
    (fn : CTestFn) (dims : ℕ) (signs0 : List ℚ) (thr : ℚ) (innerIter : ℕ)
    (h : 1 ≤ innerIter) :
    ∀ (j : ℕ) (acc : FnAcc) (s : RunSt), ticksOK M s →
      ∃ acc' s', trialsLoop M doRand fn dims signs0 thr innerIter j acc s =
        some (acc', s') ∧ ticksOK M s' := by
  intro j
  induction j with
  | zero => intro acc s hs; exact ⟨acc, s, rfl, hs⟩
  | succ n ih =>
    intro acc s hs
    obtain ⟨⟨out, s1⟩, hr⟩ := runTrial_isSome M doRand fn dims signs0 thr
      innerIter s h
    obtain ⟨acc', s', hl, hts⟩ := ih (accUpdate acc out) s1
      (runTrial_ticksOK M doRand fn dims signs0 thr innerIter s (out, s1) hr hs)
    exact ⟨acc', s', by rw [trialsLoop_succ, hr]; exact hl, hts⟩

/-- Bookkeeping invariant of the trial loop: each trial appends exactly one
entry to Iters — a success step count in [1, innerIter] or -1 — and Rej
counts exactly the -1 entries. -/
theorem trialsLoop_iters {σ : Type} (M : OptModel σ) (doRand : Bool)
    (fn : CTestFn) (dims : ℕ) (signs0 : List ℚ) (thr : ℚ) (innerIter : ℕ)
    (h : 1 ≤ innerIter) :
    ∀ (j : ℕ) (acc : FnAcc) (s : RunSt),
      (∀ v ∈ acc.Iters, v = -1 ∨ (1 ≤ v ∧ v ≤ (innerIter : ℤ))) →
      acc.Rej = (acc.Iters.filter (fun v => decide (v < 0))).length →
      ∃ acc' s',
        trialsLoop M doRand fn dims signs0 thr innerIter j acc s =
          some (acc', s') ∧
        acc'.Iters.length = acc.Iters.length + j ∧
        (∀ v ∈ acc'.Iters, v = -1 ∨ (1 ≤ v ∧ v ≤ (innerIter : ℤ))) ∧
        acc'.Rej = (acc'.Iters.filter (fun v => decide (v < 0))).length := by
  intro j
  induction j with
  | zero => intro acc s h1 h2; exact ⟨acc, s, rfl, by omega, h1, h2⟩
  | succ n ih =>
    intro acc s h1 h2
    rcases runTrial_cases M doRand fn dims signs0 thr innerIter s h with
      ⟨m, hm1, hm2, _, _, hrt⟩ | ⟨_, hrt⟩
    · -- success trial: appends m with 1 <= m <= innerIter
      have hgood : ∀ v ∈ (accUpdate acc (.success m
          (bestAt M (trialStart M doRand fn dims signs0 s).1
            (trialStart M doRand fn dims signs0 s).2 m))).Iters,
          v = -1 ∨ (1 ≤ v ∧ v ≤ (innerIter : ℤ)) := by
        intro v hv
        simp only [accUpdate, List.mem_append, List.mem_singleton] at hv
        rcases hv with hv | hv
        · exact h1 v hv
        · right
          subst hv
          constructor
          · exact_mod_cast hm1
          · exact_mod_cast hm2
      have hrej : (accUpdate acc (.success m
          (bestAt M (trialStart M doRand fn dims signs0 s).1
            (trialStart M doRand fn dims signs0 s).2 m))).Rej =
          ((accUpdate acc (.success m
            (bestAt M (trialStart M doRand fn dims signs0 s).1
              (trialStart M doRand fn dims signs0 s).2 m))).Iters.filter
            (fun v => decide (v < 0))).length := by
        simp only [accUpdate, List.filter_append]
        have hnn : ¬((m : ℤ) < 0) := by omega
        simp [hnn, h2]
      obtain ⟨acc', s', hl, hlen, hg, hr⟩ := ih _ _ hgood hrej
      refine ⟨acc', s', by rw [trialsLoop_succ, hrt]; exact hl, ?_, hg, hr⟩
      simp only [accUpdate, List.length_append, List.length_singleton] at hlen
      omega
    · -- rejected trial: appends -1 and increments Rej
      have hgood : ∀ v ∈ (accUpdate acc (.reject
          (bestAt M (trialStart M doRand fn dims signs0 s).1
            (trialStart M doRand fn dims signs0 s).2 innerIter))).Iters,
          v = -1 ∨ (1 ≤ v ∧ v ≤ (innerIter : ℤ)) := by
        intro v hv
        simp only [accUpdate, List.mem_append, List.mem_singleton] at hv
        rcases hv with hv | hv
        · exact h1 v hv
        · exact Or.inl hv
      have hrej : (accUpdate acc (.reject
          (bestAt M (trialStart M doRand fn dims signs0 s).1
            (trialStart M doRand fn dims signs0 s).2 innerIter))).Rej =
          ((accUpdate acc (.reject
            (bestAt M (trialStart M doRand fn dims signs0 s).1
              (trialStart M doRand fn dims signs0 s).2 innerIter))).Iters.filter
            (fun v => decide (v < 0))).length := by
        simp only [accUpdate, List.filter_append]
        simp [h2]
      obtain ⟨acc', s', hl, hlen, hg, hr⟩ := ih _ _ hgood hrej
      refine ⟨acc', s', by rw [trialsLoop_succ, hrt]; exact hl, ?_, hg, hr⟩
      simp only [accUpdate, List.length_append, List.length_singleton] at hlen
      omega

/-- When the optimizer's reported best cost can never come within the
threshold of the function's known optimum, every trial rejects: Rej rises by
exactly one per trial. -/
theorem trialsLoop_allreject {σ : Type} (M : OptModel σ) (doRand : Bool)
    (fn : CTestFn) (dims : ℕ) (signs0 : List ℚ) (thr : ℚ) (innerIter : ℕ)
    (h : 1 ≤ innerIter)
    (hfail : ∀ st : σ, ¬(M.obest st - fn.OptValue < thr)) :
    ∀ (j : ℕ) (acc : FnAcc) (s : RunSt),
      ∃ acc' s',
        trialsLoop M doRand fn dims signs0 thr innerIter j acc s =
          some (acc', s') ∧ acc'.Rej = acc.Rej + j := by
  intro j
  induction j with
  | zero => intro acc s; exact ⟨acc, s, rfl, by omega⟩
  | succ n ih =>
    intro acc s
    rcases runTrial_cases M doRand fn dims signs0 thr innerIter s h with
      ⟨m, _, _, hcond, _, _⟩ | ⟨_, hrt⟩
    · exact absurd hcond (hfail _)
    · obtain ⟨acc', s', hl, hr⟩ := ih (accUpdate acc (.reject _)) _
      refine ⟨acc', s', by rw [trialsLoop_succ, hrt]; exact hl, ?_⟩
      rw [hr]
      simp only [accUpdate]
      omega

/-- fnStats copies the reject count unchanged from the accumulator. -/
theorem fnStats_Rej (msqrt : ℚ → ℚ) (iterC : ℕ) (acc : FnAcc) :
    (fnStats msqrt iterC acc).Rej = acc.Rej := by
  unfold fnStats
  by_cases h : iterC ≤ acc.Rej <;> simp [h]

/-- fnStats copies the Iters record unchanged from the accumulator. -/
theorem fnStats_Iters (msqrt : ℚ → ℚ) (iterC : ℕ) (acc : FnAcc) :
    (fnStats msqrt iterC acc).Iters = acc.Iters := by
  unfold fnStats
  by_cases h : iterC ≤ acc.Rej <;> simp [h]

/-- fnStats computes the reject rate as Rej / IterCount. -/
theorem fnStats_RejRate (msqrt : ℚ → ℚ) (iterC : ℕ) (acc : FnAcc) :
    (fnStats msqrt iterC acc).RejRate = (acc.Rej : ℚ) / (iterC : ℚ) := by
  unfold fnStats
  by_cases h : iterC ≤ acc.Rej <;> simp [h]

/-- fnStats computes the average reject cost as the unguarded division of
the reject cost sum by the reject count. -/
theorem fnStats_AvgRjCostS (msqrt : ℚ → ℚ) (iterC : ℕ) (acc : FnAcc) :
    (fnStats msqrt iterC acc).AvgRjCostS = safeDiv acc.AvgRjCost acc.Rej := by
  unfold fnStats
  by_cases h : iterC ≤ acc.Rej <;> simp [h]

/-- fnStats computes the average success cost as the unguarded division of
the success cost sum by the success count. -/
theorem fnStats_AvgCostS (msqrt : ℚ → ℚ) (iterC : ℕ) (acc : FnAcc) :
    (fnStats msqrt iterC acc).AvgCostS =
      safeDiv acc.AvgCost (iterC - acc.Rej) := by
  unfold fnStats
  by_cases h : iterC ≤ acc.Rej <;> simp [h]

/-- When the rejects fill the trial budget, fnStats takes the sentinel
branch for both iteration statistics. -/
theorem fnStats_sentinel (msqrt : ℚ → ℚ) (iterC : ℕ) (acc : FnAcc)
    (h : iterC ≤ acc.Rej) :
    (fnStats msqrt iterC acc).Avg = 1000000 ∧
      (fnStats msqrt iterC acc).RMS = 1000000 := by
  unfold fnStats
  simp [h]

/-- Unfolding of runFn. -/
theorem runFn_def {σ : Type} (M : OptModel σ) (cfg : Cfg) (fn : CTestFn)
    (s : RunSt) :
    runFn M cfg fn s =
      match trialsLoop M cfg.DoRandomize fn
          (if fn.Dims = 0 then cfg.DefDims else fn.Dims)
          (List.replicate (if fn.Dims = 0 then cfg.DefDims else fn.Dims)
            (1 : ℚ))
          cfg.CostThreshold cfg.InnerIterCount cfg.IterCount emptyAcc s with
      | none => none
      | some (acc, s') => some (fnStats M.msqrt cfg.IterCount acc, s') := rfl

/-- runFn terminates and preserves the tick invariant when innerIter is at
least 1. -/
theorem runFn_props {σ : Type} (M : OptModel σ) (cfg : Cfg) (fn : CTestFn)
    (s : RunSt) (h : 1 ≤ cfg.InnerIterCount) (hts : ticksOK M s) :
    ∃ fs s', runFn M cfg fn s = some (fs, s') ∧ ticksOK M s' := by
  obtain ⟨acc', s', hl, hts'⟩ := trialsLoop_props M cfg.DoRandomize fn
    (if fn.Dims = 0 then cfg.DefDims else fn.Dims)
    (List.replicate (if fn.Dims = 0 then cfg.DefDims else fn.Dims) (1 : ℚ))
    cfg.CostThreshold cfg.InnerIterCount h cfg.IterCount emptyAcc s hts
  exact ⟨fnStats M.msqrt cfg.IterCount acc', s',
    by rw [runFn_def, hl], hts'⟩

/-- runCorpus terminates, produces one statistics record per corpus entry,
and preserves the tick invariant, when innerIter is at least 1. -/
theorem runCorpus_props {σ : Type} (M : OptModel σ) (cfg : Cfg)
    (h : 1 ≤ cfg.InnerIterCount) :
    ∀ (corpus : List CTestFn) (s : RunSt), ticksOK M s →
      ∃ sts s', runCorpus M cfg corpus s = some (sts, s') ∧
        sts.length = corpus.length ∧ ticksOK M s' := by
  intro corpus
  induction corpus with
  | nil => intro s hs; exact ⟨[], s, rfl, rfl, hs⟩
  | cons fn rest ih =>
    intro s hs
    obtain ⟨fs, s1, hfn, hts1⟩ := runFn_props M cfg fn s h hs
    obtain ⟨sts, s2, hrest, hlen, hts2⟩ := ih s1 hts1
    refine ⟨fs :: sts, s2, ?_, by simp [hlen], hts2⟩
    show (match runFn M cfg fn s with
      | none => none
      | some (st, s') =>
        match runCorpus M cfg rest s' with
        | none => none
        | some (sts, s2) => some (st :: sts, s2)) = _
    rw [hfn]
    dsimp only
    rw [hrest]

/-- The tick invariant holds at the start of a run. -/
theorem ticksOK_start {σ : Type} (M : OptModel σ) (rc0 : ℕ) :
    ticksOK M ⟨rc0, 0, 0⟩ := by
  simp [ticksOK]

/-- Unfolding of runBench. -/
theorem runBench_def {σ : Type} (M : OptModel σ) (cfg : Cfg)
    (corpus : List CTestFn) (rc0 : ℕ) :
    runBench M cfg corpus rc0 =
      match runCorpus M cfg corpus ⟨rc0, 0, 0⟩ with
      | none => none
      | some (sts, s) =>
        some { stats := sts,
               ItAvg := safeDiv (sts.foldl (fun r t => r + t.Avg) 0)
                 sts.length,
               ItRtAvg := safeDiv (sts.foldl (fun r t => r + t.RMS / t.Avg) 0)
                 sts.length,
               RjAvg := safeDiv (sts.foldl (fun r t => r + t.RejRate) 0)
                 sts.length,
               tc := s.tc,
               fin := s } := rfl

/-- A left fold of additions starting at a equals a plus the sum of the
mapped list. -/
theorem foldl_add_map {α : Type} (f : α → ℚ) :
    ∀ (l : List α) (a : ℚ),
      l.foldl (fun r t => r + f t) a = a + (l.map f).sum := by
  intro l
  induction l with
  | nil => intro a; simp
  | cons x xs ih =>
    intro a
    simp only [List.foldl_cons, List.map_cons, List.sum_cons, ih]
    ring

/-- The sum of a constant map is length times the constant. -/
theorem map_sum_const {α : Type} (f : α → ℚ) (c : ℚ) :
    ∀ l : List α, (∀ x ∈ l, f x = c) → (l.map f).sum = l.length * c := by
  intro l
  induction l with
  | nil => intro _; simp
  | cons x xs ih =>
    intro h
    simp only [List.map_cons, List.sum_cons, List.length_cons]
    rw [h x (by simp), ih (fun y hy => h y (by simp [hy]))]
    push_cast
    ring

/-- A list of integers splits into its nonnegative and negative entries. -/
theorem filter_length_split : ∀ l : List ℤ,
    (l.filter (fun v => decide (0 ≤ v))).length +
      (l.filter (fun v => decide (v < 0))).length = l.length := by
  intro l
  induction l with
  | nil => simp
  | cons x xs ih =>
    by_cases h : (0 : ℤ) ≤ x
    · have h2 : ¬(x < 0) := not_lt.mpr h
      simp [List.filter_cons, h, h2]
      omega
    · have h2 : x < 0 := lt_of_not_ge h
      simp [List.filter_cons, h, h2]
      omega

/-- getD at a valid index is the indexed element. -/
theorem getD_eq_get (l : List ℚ) (i : ℕ) (h : i < l.length) :
    l.getD i 0 = l[i] := by
  rw [List.getD_eq_getElem?_getD, List.getElem?_eq_getElem h]
  rfl

/-- The bound-violation scan of minimize_func, phrased by index: some zipped
pair has upper < lower exactly when some common index does. -/
theorem zip_any_lt_iff (lower upper : List ℚ)
    (hlen : lower.length = upper.length) :
    ((List.zip lower upper).any (fun q => decide (q.2 < q.1)) = true) ↔
      ∃ i, i < lower.length ∧ upper.getD i 0 < lower.getD i 0 := by
  rw [List.any_eq_true]
  constructor
  · rintro ⟨x, hx, hq⟩
    obtain ⟨n, hn, hget⟩ := List.mem_iff_getElem.mp hx
    have hnl : n < lower.length := by
      rw [List.length_zip] at hn
      omega
    have hnu : n < upper.length := by omega
    refine ⟨n, hnl, ?_⟩
    have hzip : (List.zip lower upper)[n] = (lower[n], upper[n]) :=
      List.getElem_zip
    rw [hzip] at hget
    rw [getD_eq_get lower n hnl, getD_eq_get upper n hnu]
    have h2 := of_decide_eq_true hq
    rw [← hget] at h2
    exact h2
  · rintro ⟨i, hi, hlt⟩
    have hiu : i < upper.length := by omega
    have hiz : i < (List.zip lower upper).length := by
      rw [List.length_zip]
      omega
    refine ⟨(lower[i], upper[i]), ?_, ?_⟩
    · exact List.mem_iff_getElem.mpr ⟨i, hiz, List.getElem_zip⟩
    · rw [getD_eq_get lower i hi, getD_eq_get upper i hiu] at hlt
      exact decide_eq_true hlt

/-- With a zero trial count, each function's statistics are those of the
empty accumulator (sentinel branch, zero-denominator cost averages). -/
theorem runCorpus_iterZero {σ : Type} (M : OptModel σ) (cfg : Cfg)
    (hIC : cfg.IterCount = 0) :
    ∀ (corpus : List CTestFn) (s : RunSt) (sts : List FnStats) (s' : RunSt),
      runCorpus M cfg corpus s = some (sts, s') →
      ∀ fs ∈ sts, fs = fnStats M.msqrt 0 emptyAcc := by
  intro corpus
  induction corpus with
  | nil =>
    intro s sts s' hc fs hfs
    cases hc
    simp at hfs
  | cons fn rest ih =>
    intro s sts s' hc fs hfs
    have hfn : runFn M cfg fn s = some (fnStats M.msqrt 0 emptyAcc, s) := by
      rw [runFn_def, hIC]
      rfl
    rw [show runCorpus M cfg (fn :: rest) s =
        (match runFn M cfg fn s with
        | none => none
        | some (st, s1) =>
          match runCorpus M cfg rest s1 with
          | none => none
          | some (sts2, s2) => some (st :: sts2, s2)) from rfl, hfn] at hc
    dsimp only at hc
    cases hrest : runCorpus M cfg rest s with
    | none => rw [hrest] at hc; cases hc
    | some r =>
      obtain ⟨sts2, s2⟩ := r
      rw [hrest] at hc
      dsimp only at hc
      injection hc with hpair
      injection hpair with hsts hs
      subst hsts
      rcases List.mem_cons.mp hfs with hfs | hfs
      · exact hfs
      · exact ih s sts2 s2 hrest fs hfs

/-- When the reported best cost can never reach the threshold, one
function's processing rejects every trial: its statistics carry the
sentinel values and the full reject count. -/
theorem runFn_fail_stats {σ : Type} (M : OptModel σ) (cfg : Cfg)
    (fn : CTestFn) (s : RunSt) (h1 : 1 ≤ cfg.InnerIterCount)
    (hfail : ∀ st : σ, ¬(M.obest st - fn.OptValue < cfg.CostThreshold)) :
    ∃ fs s', runFn M cfg fn s = some (fs, s') ∧ fs.Rej = cfg.IterCount ∧
      fs.Avg = 1000000 ∧ fs.RMS = 1000000 := by
  obtain ⟨acc', s', hl, hr⟩ := trialsLoop_allreject M cfg.DoRandomize fn
    (if fn.Dims = 0 then cfg.DefDims else fn.Dims)
    (List.replicate (if fn.Dims = 0 then cfg.DefDims else fn.Dims) (1 : ℚ))
    cfg.CostThreshold cfg.InnerIterCount h1 hfail cfg.IterCount emptyAcc s
  have hrej : acc'.Rej = cfg.IterCount := by
    rw [hr]
    simp [emptyAcc]
  obtain ⟨hAvg, hRMS⟩ := fnStats_sentinel M.msqrt cfg.IterCount acc'
    (by omega)
  exact ⟨fnStats M.msqrt cfg.IterCount acc', s', by rw [runFn_def, hl],
    by rw [fnStats_Rej, hrej], hAvg, hRMS⟩

/-- Corpus-wide version of runFn_fail_stats. -/
theorem runCorpus_fail_stats {σ : Type} (M : OptModel σ) (cfg : Cfg)
    (h1 : 1 ≤ cfg.InnerIterCount) :
    ∀ (corpus : List CTestFn) (s : RunSt),
      (∀ fn ∈ corpus, ∀ st : σ,
        ¬(M.obest st - fn.OptValue < cfg.CostThreshold)) →
      ∃ sts s', runCorpus M cfg corpus s = some (sts, s') ∧
        sts.length = corpus.length ∧
        ∀ fs ∈ sts, fs.Rej = cfg.IterCount ∧ fs.Avg = 1000000 ∧
          fs.RMS = 1000000 := by
  intro corpus
  induction corpus with
  | nil => intro s _; exact ⟨[], s, rfl, rfl, by simp⟩
  | cons fn rest ih =>
    intro s hfail
    obtain ⟨fs, s1, hfn, hrej, hAvg, hRMS⟩ := runFn_fail_stats M cfg fn s h1
      (hfail fn (by simp))
    obtain ⟨sts, s2, hrest, hlen, hall⟩ := ih s1
      (fun g hg => hfail g (by simp [hg]))
    refine ⟨fs :: sts, s2, ?_, by simp [hlen], ?_⟩
    · show (match runFn M cfg fn s with
        | none => none
        | some (st, s') =>
          match runCorpus M cfg rest s' with
          | none => none
          | some (sts, s2) => some (st :: sts, s2)) = _
      rw [hfn]
      dsimp only
      rw [hrest]
    · intro g hg
      rcases List.mem_cons.mp hg with hg | hg
      · subst hg; exact ⟨hrej, hAvg, hRMS⟩
      · exact hall g hg

/-- C1: for every trial, the inner loop classifies the trial as a success
exactly when some step s in [1, innerIterCount] first brings bestCost -
knownOptimum strictly below costThreshold — recording iterationsUsed = s,
adding the best cost to the success cost sum, and stopping the trial — and
otherwise as rejected exactly when step innerIterCount completes without
the condition — adding the best cost to the reject cost sum, incrementing
the reject count, and stopping the trial. -/
theorem c1_trial_classification {σ : Type} (M : OptModel σ) (doRand : Bool)
    (fn : CTestFn) (dims : ℕ) (signs0 : List ℚ) (thr : ℚ) (innerIter : ℕ)
    (s : RunSt) (acc : FnAcc) (h : 1 ≤ innerIter) :
    (∃ n, 1 ≤ n ∧ n ≤ innerIter ∧
      bestAt M (trialStart M doRand fn dims signs0 s).1
        (trialStart M doRand fn dims signs0 s).2 n - fn.OptValue < thr ∧
      (∀ m, 1 ≤ m → m < n →
        ¬(bestAt M (trialStart M doRand fn dims signs0 s).1
            (trialStart M doRand fn dims signs0 s).2 m - fn.OptValue < thr)) ∧
      runTrial M doRand fn dims signs0 thr innerIter s =
        some (.success n (bestAt M (trialStart M doRand fn dims signs0 s).1
            (trialStart M doRand fn dims signs0 s).2 n),
          (stepN M (trialStart M doRand fn dims signs0 s).1
            (trialStart M doRand fn dims signs0 s).2 n).2) ∧
      accUpdate acc (.success n
          (bestAt M (trialStart M doRand fn dims signs0 s).1
            (trialStart M doRand fn dims signs0 s).2 n)) =
        { acc with
            AvgCost := acc.AvgCost +
              bestAt M (trialStart M doRand fn dims signs0 s).1
                (trialStart M doRand fn dims signs0 s).2 n,
            AvgIter := acc.AvgIter + (n : ℚ),
            Iters := acc.Iters ++ [(n : ℤ)] })
    ∨ ((∀ m, 1 ≤ m → m ≤ innerIter →
        ¬(bestAt M (trialStart M doRand fn dims signs0 s).1
            (trialStart M doRand fn dims signs0 s).2 m - fn.OptValue < thr)) ∧
      runTrial M doRand fn dims signs0 thr innerIter s =
        some (.reject (bestAt M (trialStart M doRand fn dims signs0 s).1
            (trialStart M doRand fn dims signs0 s).2 innerIter),
          (stepN M (trialStart M doRand fn dims signs0 s).1
            (trialStart M doRand fn dims signs0 s).2 innerIter).2) ∧
      accUpdate acc (.reject
          (bestAt M (trialStart M doRand fn dims signs0 s).1
            (trialStart M doRand fn dims signs0 s).2 innerIter)) =
        { acc with
            AvgRjCost := acc.AvgRjCost +
              bestAt M (trialStart M doRand fn dims signs0 s).1
                (trialStart M doRand fn dims signs0 s).2 innerIter,
            Rej := acc.Rej + 1,
            Iters := acc.Iters ++ [(-1 : ℤ)] }) := by
  rcases runTrial_cases M doRand fn dims signs0 thr innerIter s h with
    ⟨n, h1, h2, h3, h4, h5⟩ | ⟨h1, h2⟩
  · exact Or.inl ⟨n, h1, h2, h3, h4, h5, rfl⟩
  · exact Or.inr ⟨h1, h2, rfl⟩

/-- Witness for C1 at a concrete instance: the trivial optimizer sitting at
cost 0 with threshold 1 makes the trial a success at step 1. -/
theorem c1_witness :
    runTrial unitModel false sphere1 1 [1] 1 1 ⟨0, 0, 0⟩ =
      some (.success 1
          (bestAt unitModel (trialStart unitModel false sphere1 1 [1]
            ⟨0, 0, 0⟩).1 (trialStart unitModel false sphere1 1 [1]
            ⟨0, 0, 0⟩).2 1),
        (stepN unitModel (trialStart unitModel false sphere1 1 [1]
            ⟨0, 0, 0⟩).1 (trialStart unitModel false sphere1 1 [1]
            ⟨0, 0, 0⟩).2 1).2) := by
  rcases c1_trial_classification unitModel false sphere1 1 [1] 1 1 ⟨0, 0, 0⟩
      emptyAcc (le_refl 1) with
    ⟨n, hn1, hn2, _, _, hrt, _⟩ | ⟨hall, _, _⟩
  · have hn : n = 1 := by omega
    subst hn
    exact hrt
  · exfalso
    apply hall 1 (le_refl 1) (le_refl 1)
    show unitModel.obest _ - sphere1.OptValue < 1
    norm_num [unitModel, sphere1]

/-- C5: the host-binding minimize entry point rejects mismatched bound-list
lengths and any index with lower[i] > upper[i], reporting a TypeError with
zero optimizer invocations (so the caller's objective is never evaluated),
and invokes the optimizer exactly once when the bounds validate. -/
theorem c5_bounds_validation (bopt : ℕ → List ℚ → List ℚ → ℚ × List ℚ)
    (lower upper : List ℚ) :
    (lower.length ≠ upper.length →
      minimize_func bopt lower upper =
        (.error "minimize: matching list lengths required", 0)) ∧
    (lower.length = upper.length →
      (∃ i, i < lower.length ∧ upper.getD i 0 < lower.getD i 0) →
      minimize_func bopt lower upper =
        (.error "minimize: lower should not be greater than upper", 0)) ∧
    (lower.length = upper.length →
      (∀ i, i < lower.length → lower.getD i 0 ≤ upper.getD i 0) →
      minimize_func bopt lower upper =
        (.ok (bopt lower.length lower upper), 1)) := by
  refine ⟨?_, ?_, ?_⟩
  · intro h
    unfold minimize_func
    rw [if_pos h]
  · intro hlen hex
    unfold minimize_func
    rw [if_neg (not_not_intro hlen),
      if_pos ((zip_any_lt_iff lower upper hlen).mpr hex)]
  · intro hlen hall
    unfold minimize_func
    rw [if_neg (not_not_intro hlen), if_neg ?_]
    intro hany
    obtain ⟨i, hi, hlt⟩ := (zip_any_lt_iff lower upper hlen).mp hany
    exact absurd hlt (not_lt.mpr (hall i hi))

/-- Witness for C5: scenario C of the spec, lower = [0,0], upper = [1],
yields the length-mismatch error with zero optimizer calls. -/
theorem c5_witness :
    minimize_func (fun _ _ _ => ((0 : ℚ), ([] : List ℚ))) [0, 0] [1] =
      (.error "minimize: matching list lengths required", 0) :=
  (c5_bounds_validation (fun _ _ _ => ((0 : ℚ), ([] : List ℚ)))
    [0, 0] [1]).1 (by simp)

/-- C6: each trial's sign vector is fixed for the entire trial: with
randomization it is drawn once at trial start, dimension i being +1 exactly
when rnd() < 0.5 and -1 otherwise, one independent draw per dimension; with
randomization disabled the per-function vector signs0 is used unchanged;
and the objective driving every optimizer step of the trial is the
function's cost at the pointwise product params[i] * sign[i] for this one
vector. -/
theorem c6_signs_fixed {σ : Type} (M : OptModel σ) (doRand : Bool)
    (fn : CTestFn) (dims : ℕ) (signs0 : List ℚ) (thr : ℚ) (innerIter : ℕ)
    (s : RunSt) :
    ∃ signs : List ℚ,
      (doRand = true → signs = (drawSigns M.rv dims s.rc).1 ∧
        signs.length = dims ∧
        (∀ i, i < dims → signs.getD i 0 =
          (if M.rv (s.rc + i) < 1/2 then (1 : ℚ) else -1))) ∧
      (doRand = false → signs = signs0 ∧
        (signs0 = List.replicate dims 1 →
          ∀ i, i < dims → signs.getD i 0 = 1)) ∧
      (trialStart M doRand fn dims signs0 s).1 = optcost fn.Calc signs ∧
      (∀ p, optcost fn.Calc signs p =
        fn.Calc (List.zipWith (fun a b => a * b) p signs)) ∧
      runTrial M doRand fn dims signs0 thr innerIter s =
        innerLoop M (optcost fn.Calc signs) fn.OptValue thr innerIter
          innerIter 0 (trialStart M doRand fn dims signs0 s).2 := by
  refine ⟨(if doRand then drawSigns M.rv dims s.rc else (signs0, s.rc)).1,
    ?_, ?_, ?_, ?_, ?_⟩
  · intro hd
    subst hd
    refine ⟨rfl, by simp [drawSigns], ?_⟩
    intro i hi
    simp only [if_pos rfl]
    exact getD_range_map _ hi
  · intro hd
    subst hd
    refine ⟨rfl, ?_⟩
    intro hs0 i hi
    show signs0.getD i 0 = 1
    rw [hs0]
    exact getD_replicate_val 1 hi
  · cases doRand <;> rfl
  · intro p
    rfl
  · cases doRand <;> rfl

/-- Witness for C6 at a concrete instance with randomization enabled: the
trial is the inner loop driven by the once-drawn sign vector. -/
theorem c6_witness :
    runTrial unitModel true sphere1 1 [1] 1 1 ⟨0, 0, 0⟩ =
      innerLoop unitModel
        (optcost sphere1.Calc (drawSigns unitModel.rv 1 0).1)
        sphere1.OptValue 1 1 1 0
        (trialStart unitModel true sphere1 1 [1] ⟨0, 0, 0⟩).2 := by
  obtain ⟨signs, h1, _, _, _, h5⟩ :=
    c6_signs_fixed unitModel true sphere1 1 [1] 1 1 ⟨0, 0, 0⟩
  obtain ⟨he, _, _⟩ := h1 rfl
  rw [h5, he]

/-- C7: the adapter's bound getters overwrite all dims entries: with
randomization each dimension is the spec's bound scaled by an independently
drawn factor 0.5 + rnd()*0.5, which lies in [0.5, 1.0) whenever the random
source produces values in [0, 1); without randomization every dimension is
the spec's bound unchanged. -/
theorem c7_bounds_getters (rv : ℕ → ℚ) (dims : ℕ) (bMin bMax : ℚ) (rc : ℕ)
    (hr : ∀ n, 0 ≤ rv n ∧ rv n < 1) :
    ((getMinValues rv true dims bMin rc).1.length = dims ∧
      (getMinValues rv true dims bMin rc).2 = rc + dims ∧
      (∀ i, i < dims → (getMinValues rv true dims bMin rc).1.getD i 0 =
        bMin * (1/2 + rv (rc + i) * (1/2))) ∧
      (∀ i, 1/2 ≤ 1/2 + rv (rc + i) * (1/2) ∧
        1/2 + rv (rc + i) * (1/2) < 1)) ∧
    ((getMaxValues rv true dims bMax rc).1.length = dims ∧
      (getMaxValues rv true dims bMax rc).2 = rc + dims ∧
      (∀ i, i < dims → (getMaxValues rv true dims bMax rc).1.getD i 0 =
        bMax * (1/2 + rv (rc + i) * (1/2)))) ∧
    (getMinValues rv false dims bMin rc = (List.replicate dims bMin, rc) ∧
      (∀ i, i < dims →
        (getMinValues rv false dims bMin rc).1.getD i 0 = bMin)) ∧
    (getMaxValues rv false dims bMax rc = (List.replicate dims bMax, rc) ∧
      (∀ i, i < dims →
        (getMaxValues rv false dims bMax rc).1.getD i 0 = bMax)) := by
  refine ⟨⟨by simp [getMinValues], rfl, ?_, ?_⟩,
    ⟨by simp [getMaxValues], rfl, ?_⟩, ⟨rfl, ?_⟩, ⟨rfl, ?_⟩⟩
  · intro i hi
    exact getD_range_map _ hi
  · intro i
    obtain ⟨ha, hb⟩ := hr (rc + i)
    constructor <;> linarith
  · intro i hi
    exact getD_range_map _ hi
  · intro i hi
    exact getD_replicate_val bMin hi
  · intro i hi
    exact getD_replicate_val bMax hi

/-- Witness for C7 at a concrete instance: with the constant-zero random
stream, the randomized lower bound of dimension 0 is the spec bound scaled
by exactly 0.5. -/
theorem c7_witness :
    (getMinValues (fun _ => (0 : ℚ)) true 1 (-10) 0).1.getD 0 0 =
      -10 * (1/2 + (0 : ℚ) * (1/2)) :=
  ((c7_bounds_getters (fun _ => (0 : ℚ)) 1 (-10) 10 0
    (fun n => ⟨le_refl 0, by norm_num⟩)).1.2.2.1 0 (by norm_num))

/-! Simulation of two runs whose collaborators differ only in the hardware
tick stream. The seed fixes everything the random stream feeds — bounds,
signs, the optimizer trajectory, every classification — but not the
__rdtsc deltas; the following lemmas carry a lockstep simulation where the
optimizer state, the random stream position and the step counter coincide
while the tick accumulators run free. -/

/-- One step in lockstep: equal optimizer state, stream position and step
counter before implies equal after; the tick accumulators may differ. -/
theorem stepOnce_simtk {σ : Type} (M1 M2 : OptModel σ)
    (hs : M1.ostep = M2.ostep) (obj : List ℚ → ℚ) (p1 p2 : σ × RunSt)
    (h1 : p1.1 = p2.1) (hrc : p1.2.rc = p2.2.rc) (hsc : p1.2.sc = p2.2.sc) :
    (stepOnce M1 obj p1).1 = (stepOnce M2 obj p2).1 ∧
    (stepOnce M1 obj p1).2.rc = (stepOnce M2 obj p2).2.rc ∧
    (stepOnce M1 obj p1).2.sc = (stepOnce M2 obj p2).2.sc := by
  refine ⟨?_, ?_, ?_⟩
  · show (M1.ostep obj p1.1 p1.2.rc).1 = (M2.ostep obj p2.1 p2.2.rc).1
    rw [h1, hrc, hs]
  · show (M1.ostep obj p1.1 p1.2.rc).2 = (M2.ostep obj p2.1 p2.2.rc).2
    rw [h1, hrc, hs]
  · show p1.2.sc + 1 = p2.2.sc + 1
    rw [hsc]

/-- The inner loop in lockstep: identical classification and outcome, equal
final stream position and step counter; only the tick accumulators of the
returned run states may differ. -/
theorem innerLoop_simtk {σ : Type} (M1 M2 : OptModel σ)
    (hs : M1.ostep = M2.ostep) (hb : M1.obest = M2.obest)
    (obj : List ℚ → ℚ) (optVal thr : ℚ) (innerIter : ℕ) :
    ∀ (fuel i : ℕ) (p1 p2 : σ × RunSt),
      p1.1 = p2.1 → p1.2.rc = p2.2.rc → p1.2.sc = p2.2.sc →
      (innerLoop M1 obj optVal thr innerIter fuel i p1 = none ∧
        innerLoop M2 obj optVal thr innerIter fuel i p2 = none) ∨
      (∃ out r1 r2,
        innerLoop M1 obj optVal thr innerIter fuel i p1 = some (out, r1) ∧
        innerLoop M2 obj optVal thr innerIter fuel i p2 = some (out, r2) ∧
        r1.rc = r2.rc ∧ r1.sc = r2.sc) := by
  intro fuel
  induction fuel with
  | zero => intro i p1 p2 _ _ _; left; exact ⟨rfl, rfl⟩
  | succ f ih =>
    intro i p1 p2 h1 hrc hsc
    obtain ⟨e1, erc, esc⟩ := stepOnce_simtk M1 M2 hs obj p1 p2 h1 hrc hsc
    have ebest : M1.obest (stepOnce M1 obj p1).1 =
        M2.obest (stepOnce M2 obj p2).1 := by
      rw [e1, hb]
    by_cases hc : M1.obest (stepOnce M1 obj p1).1 - optVal < thr
    · right
      have hc2 : M2.obest (stepOnce M2 obj p2).1 - optVal < thr := by
        rw [← ebest]
        exact hc
      refine ⟨.success (i + 1) (M1.obest (stepOnce M1 obj p1).1),
        (stepOnce M1 obj p1).2, (stepOnce M2 obj p2).2, ?_, ?_, erc, esc⟩
      · rw [innerLoop_succ, if_pos hc]
      · rw [innerLoop_succ, if_pos hc2, ← ebest]
    · have hc2 : ¬(M2.obest (stepOnce M2 obj p2).1 - optVal < thr) := by
        rw [← ebest]
        exact hc
      by_cases hi : i + 1 = innerIter
      · right
        refine ⟨.reject (M1.obest (stepOnce M1 obj p1).1),
          (stepOnce M1 obj p1).2, (stepOnce M2 obj p2).2, ?_, ?_, erc, esc⟩
        · rw [innerLoop_succ, if_neg hc, if_pos hi]
        · rw [innerLoop_succ, if_neg hc2, if_pos hi, ← ebest]
      · rcases ih (i + 1) (stepOnce M1 obj p1) (stepOnce M2 obj p2)
            e1 erc esc with ⟨hn1, hn2⟩ | ⟨out, r1, r2, hs1, hs2, hrc2, hsc2⟩
        · left
          exact ⟨by rw [innerLoop_succ, if_neg hc, if_neg hi]; exact hn1,
            by rw [innerLoop_succ, if_neg hc2, if_neg hi]; exact hn2⟩
        · right
          exact ⟨out, r1, r2,
            by rw [innerLoop_succ, if_neg hc, if_neg hi]; exact hs1,
            by rw [innerLoop_succ, if_neg hc2, if_neg hi]; exact hs2,
            hrc2, hsc2⟩

/-- The trial preamble in lockstep: equal objective, initial optimizer
state, stream position and step counter. -/
theorem trialStart_simtk {σ : Type} (M1 M2 : OptModel σ)
    (ho : M1.oinit = M2.oinit) (hv : M1.rv = M2.rv) (doRand : Bool)
    (fn : CTestFn) (dims : ℕ) (signs0 : List ℚ) (s1 s2 : RunSt)
    (hrc : s1.rc = s2.rc) (hsc : s1.sc = s2.sc) :
    (trialStart M1 doRand fn dims signs0 s1).1 =
      (trialStart M2 doRand fn dims signs0 s2).1 ∧
    (trialStart M1 doRand fn dims signs0 s1).2.1 =
      (trialStart M2 doRand fn dims signs0 s2).2.1 ∧
    (trialStart M1 doRand fn dims signs0 s1).2.2.rc =
      (trialStart M2 doRand fn dims signs0 s2).2.2.rc ∧
    (trialStart M1 doRand fn dims signs0 s1).2.2.sc =
      (trialStart M2 doRand fn dims signs0 s2).2.2.sc := by
  unfold trialStart
  rw [hrc, hsc, hv, ho]
  exact ⟨rfl, rfl, rfl, rfl⟩

/-- A whole trial in lockstep: the same outcome, with equal final stream
position and step counter. -/
theorem runTrial_simtk {σ : Type} (M1 M2 : OptModel σ)
    (ho : M1.oinit = M2.oinit) (hs : M1.ostep = M2.ostep)
    (hb : M1.obest = M2.obest) (hv : M1.rv = M2.rv) (doRand : Bool)
    (fn : CTestFn) (dims : ℕ) (signs0 : List ℚ) (thr : ℚ) (innerIter : ℕ)
    (s1 s2 : RunSt) (hrc : s1.rc = s2.rc) (hsc : s1.sc = s2.sc) :
    (runTrial M1 doRand fn dims signs0 thr innerIter s1 = none ∧
      runTrial M2 doRand fn dims signs0 thr innerIter s2 = none) ∨
    (∃ out r1 r2,
      runTrial M1 doRand fn dims signs0 thr innerIter s1 = some (out, r1) ∧
      runTrial M2 doRand fn dims signs0 thr innerIter s2 = some (out, r2) ∧
      r1.rc = r2.rc ∧ r1.sc = r2.sc) := by
  obtain ⟨eobj, est, erc, esc⟩ := trialStart_simtk M1 M2 ho hv doRand fn
    dims signs0 s1 s2 hrc hsc
  rw [runTrial_def, runTrial_def, eobj]
  exact innerLoop_simtk M1 M2 hs hb _ fn.OptValue thr innerIter innerIter 0
    _ _ est erc esc

/-- The trial loop in lockstep: identical accumulators, equal final stream
position and step counter. -/
theorem trialsLoop_simtk {σ : Type} (M1 M2 : OptModel σ)
    (ho : M1.oinit = M2.oinit) (hs : M1.ostep = M2.ostep)
    (hb : M1.obest = M2.obest) (hv : M1.rv = M2.rv) (doRand : Bool)
    (fn : CTestFn) (dims : ℕ) (signs0 : List ℚ) (thr : ℚ) (innerIter : ℕ) :
    ∀ (j : ℕ) (acc : FnAcc) (s1 s2 : RunSt),
      s1.rc = s2.rc → s1.sc = s2.sc →
      (trialsLoop M1 doRand fn dims signs0 thr innerIter j acc s1 = none ∧
        trialsLoop M2 doRand fn dims signs0 thr innerIter j acc s2 = none) ∨
      (∃ acc2 r1 r2,
        trialsLoop M1 doRand fn dims signs0 thr innerIter j acc s1 =
          some (acc2, r1) ∧
        trialsLoop M2 doRand fn dims signs0 thr innerIter j acc s2 =
          some (acc2, r2) ∧
        r1.rc = r2.rc ∧ r1.sc = r2.sc) := by
  intro j
  induction j with
  | zero => intro acc s1 s2 hrc hsc; right; exact ⟨acc, s1, s2, rfl, rfl, hrc, hsc⟩
  | succ n ih =>
    intro acc s1 s2 hrc hsc
    rcases runTrial_simtk M1 M2 ho hs hb hv doRand fn dims signs0 thr
        innerIter s1 s2 hrc hsc with
      ⟨hn1, hn2⟩ | ⟨out, r1, r2, ht1, ht2, hrc2, hsc2⟩
    · left
      constructor
      · rw [trialsLoop_succ, hn1]
      · rw [trialsLoop_succ, hn2]
    · rcases ih (accUpdate acc out) r1 r2 hrc2 hsc2 with
        ⟨hm1, hm2⟩ | ⟨acc2, q1, q2, hl1, hl2, hqrc, hqsc⟩
      · left
        constructor
        · rw [trialsLoop_succ, ht1]
          exact hm1
        · rw [trialsLoop_succ, ht2]
          exact hm2
      · right
        refine ⟨acc2, q1, q2, ?_, ?_, hqrc, hqsc⟩
        · rw [trialsLoop_succ, ht1]
          exact hl1
        · rw [trialsLoop_succ, ht2]
          exact hl2

/-- One function in lockstep: identical statistics, equal final stream
position and step counter. -/
theorem runFn_simtk {σ : Type} (M1 M2 : OptModel σ)
    (ho : M1.oinit = M2.oinit) (hs : M1.ostep = M2.ostep)
    (hb : M1.obest = M2.obest) (hv : M1.rv = M2.rv)
    (hq : M1.msqrt = M2.msqrt) (cfg : Cfg) (fn : CTestFn) (s1 s2 : RunSt)
    (hrc : s1.rc = s2.rc) (hsc : s1.sc = s2.sc) :
    (runFn M1 cfg fn s1 = none ∧ runFn M2 cfg fn s2 = none) ∨
    (∃ fs r1 r2, runFn M1 cfg fn s1 = some (fs, r1) ∧
      runFn M2 cfg fn s2 = some (fs, r2) ∧ r1.rc = r2.rc ∧ r1.sc = r2.sc) := by
  rcases trialsLoop_simtk M1 M2 ho hs hb hv cfg.DoRandomize fn
      (if fn.Dims = 0 then cfg.DefDims else fn.Dims)
      (List.replicate (if fn.Dims = 0 then cfg.DefDims else fn.Dims) (1 : ℚ))
      cfg.CostThreshold cfg.InnerIterCount cfg.IterCount emptyAcc s1 s2
      hrc hsc with
    ⟨hn1, hn2⟩ | ⟨acc2, r1, r2, hl1, hl2, hrc2, hsc2⟩
  · left
    constructor
    · rw [runFn_def, hn1]
    · rw [runFn_def, hn2]
  · right
    refine ⟨fnStats M1.msqrt cfg.IterCount acc2, r1, r2, ?_, ?_, hrc2, hsc2⟩
    · rw [runFn_def, hl1]
    · rw [runFn_def, hl2, hq]

/-- The corpus loop in lockstep: identical statistics lists, equal final
stream position and step counter. -/
theorem runCorpus_simtk {σ : Type} (M1 M2 : OptModel σ)
    (ho : M1.oinit = M2.oinit) (hs : M1.ostep = M2.ostep)
    (hb : M1.obest = M2.obest) (hv : M1.rv = M2.rv)
    (hq : M1.msqrt = M2.msqrt) (cfg : Cfg) :
    ∀ (corpus : List CTestFn) (s1 s2 : RunSt),
      s1.rc = s2.rc → s1.sc = s2.sc →
      (runCorpus M1 cfg corpus s1 = none ∧
        runCorpus M2 cfg corpus s2 = none) ∨
      (∃ sts r1 r2, runCorpus M1 cfg corpus s1 = some (sts, r1) ∧
        runCorpus M2 cfg corpus s2 = some (sts, r2) ∧
        r1.rc = r2.rc ∧ r1.sc = r2.sc) := by
  intro corpus
  induction corpus with
  | nil => intro s1 s2 hrc hsc; right; exact ⟨[], s1, s2, rfl, rfl, hrc, hsc⟩
  | cons fn rest ih =>
    intro s1 s2 hrc hsc
    rcases runFn_simtk M1 M2 ho hs hb hv hq cfg fn s1 s2 hrc hsc with
      ⟨hn1, hn2⟩ | ⟨fs, r1, r2, hf1, hf2, hrc2, hsc2⟩
    · left
      constructor
      · show (match runFn M1 cfg fn s1 with
          | none => none
          | some (st, s) =>
            match runCorpus M1 cfg rest s with
            | none => none
            | some (sts, s2) => some (st :: sts, s2)) = none
        rw [hn1]
      · show (match runFn M2 cfg fn s2 with
          | none => none
          | some (st, s) =>
            match runCorpus M2 cfg rest s with
            | none => none
            | some (sts, s2) => some (st :: sts, s2)) = none
        rw [hn2]
    · rcases ih r1 r2 hrc2 hsc2 with
        ⟨hm1, hm2⟩ | ⟨sts, q1, q2, hc1, hc2, hqrc, hqsc⟩
      · left
        constructor
        · show (match runFn M1 cfg fn s1 with
            | none => none
            | some (st, s) =>
              match runCorpus M1 cfg rest s with
              | none => none
              | some (sts, s2) => some (st :: sts, s2)) = none
          rw [hf1]
          dsimp only
          rw [hm1]
        · show (match runFn M2 cfg fn s2 with
            | none => none
            | some (st, s) =>
              match runCorpus M2 cfg rest s with
              | none => none
              | some (sts, s2) => some (st :: sts, s2)) = none
          rw [hf2]
          dsimp only
          rw [hm2]
      · right
        refine ⟨fs :: sts, q1, q2, ?_, ?_, hqrc, hqsc⟩
        · show (match runFn M1 cfg fn s1 with
            | none => none
            | some (st, s) =>
              match runCorpus M1 cfg rest s with
              | none => none
              | some (sts, s2) => some (st :: sts, s2)) = some (fs :: sts, q1)
          rw [hf1]
          dsimp only
          rw [hc1]
        · show (match runFn M2 cfg fn s2 with
            | none => none
            | some (st, s) =>
              match runCorpus M2 cfg rest s with
              | none => none
              | some (sts, s2) => some (st :: sts, s2)) = some (fs :: sts, q2)
          rw [hf2]
          dsimp only
          rw [hc2]

/-- C9 is refuted as stated: two runs with the same seed (stream position
0), the same configuration and the same corpus, whose collaborators differ
only in the __rdtsc tick stream — exactly the variation the seed does not
control — produce different accumulated tick totals, hence different
AggregateStats. -/
theorem c9_counterexample :
    (runBench unitModel ⟨1, 1, 1, 1, false⟩ [sphere1] 0).map
      (fun o => o.tc) = some 0 ∧
    (runBench tickModel ⟨1, 1, 1, 1, false⟩ [sphere1] 0).map
      (fun o => o.tc) = some 1 ∧
    (runBench unitModel ⟨1, 1, 1, 1, false⟩ [sphere1] 0).map
      (fun o => o.tc) ≠
    (runBench tickModel ⟨1, 1, 1, 1, false⟩ [sphere1] 0).map
      (fun o => o.tc) := by
  have h1 : (runBench unitModel ⟨1, 1, 1, 1, false⟩ [sphere1] 0).map
      (fun o => o.tc) = some 0 := by
    norm_num [runBench, runCorpus, runFn, trialsLoop, runTrial, trialStart,
      innerLoop, stepOnce, stepN, drawSigns, getMinValues, getMaxValues,
      optcost, fnStats, accUpdate, emptyAcc, safeDiv, unitModel, sphere1,
      bestAt]
  have h2 : (runBench tickModel ⟨1, 1, 1, 1, false⟩ [sphere1] 0).map
      (fun o => o.tc) = some 1 := by
    norm_num [runBench, runCorpus, runFn, trialsLoop, runTrial, trialStart,
      innerLoop, stepOnce, stepN, drawSigns, getMinValues, getMaxValues,
      optcost, fnStats, accUpdate, emptyAcc, safeDiv, tickModel, unitModel,
      sphere1, bestAt]
  refine ⟨h1, h2, ?_⟩
  rw [h1, h2]
  simp

/-- C9 (amended): with the same seed of the shared RandomSource, the same
configuration and the same corpus of pure cost functions, two runs produce
identical FunctionStats for every function and identical aggregate
averages ItAvg, ItRtAvg and RjAvg, even when the hardware tick streams of
the two runs differ; the tick total in AggregateStats is the one component
that is not seed-determined. Every seed-driven decision — bound scaling,
sign draws, the optimizer trajectory, each success/reject classification —
reads the one shared stream, mirroring the single global rnd of tester.h,
so the two runs stay in lockstep with at most their tick accumulators
apart. -/
theorem c9_determinism_modulo_ticks {σ : Type} (M : OptModel σ)
    (tk2 : ℕ → ℕ) (cfg : Cfg) (corpus : List CTestFn) (rc1 rc2 : ℕ)
    (h : rc1 = rc2) :
    (runBench M cfg corpus rc1).map
      (fun o => (o.stats, o.ItAvg, o.ItRtAvg, o.RjAvg)) =
    (runBench { M with tk := tk2 } cfg corpus rc2).map
      (fun o => (o.stats, o.ItAvg, o.ItRtAvg, o.RjAvg)) := by
  subst h
  rcases runCorpus_simtk M { M with tk := tk2 } rfl rfl rfl rfl rfl cfg
      corpus ⟨rc1, 0, 0⟩ ⟨rc1, 0, 0⟩ rfl rfl with
    ⟨hn1, hn2⟩ | ⟨sts, r1, r2, hc1, hc2, _, _⟩
  · rw [runBench_def, runBench_def, hn1, hn2]
  · rw [runBench_def, runBench_def, hc1, hc2]
    rfl

/-- Witness for the amended C9: the two concrete same-seed runs under
different tick streams agree on all statistics except the tick total. -/
theorem c9_witness :
    (runBench unitModel ⟨1, 1, 1, 1, false⟩ [sphere1] 0).map
      (fun o => (o.stats, o.ItAvg, o.ItRtAvg, o.RjAvg)) =
    (runBench tickModel ⟨1, 1, 1, 1, false⟩ [sphere1] 0).map
      (fun o => (o.stats, o.ItAvg, o.ItRtAvg, o.RjAvg)) :=
  c9_determinism_modulo_ticks unitModel (fun _ => 1) ⟨1, 1, 1, 1, false⟩
    [sphere1] 0 0 rfl

/-- C2 is refuted: in a concrete run (trivial optimizer at the optimum,
threshold 1, two trials) every trial succeeds, so the function's reject
count is 0 — and avgCostOnReject is then the unguarded division by zero
(modelled none, the non-finite double), not a defined sentinel value. -/
theorem c2_counterexample :
    (runBench unitModel ⟨1, 1, 2, 3, false⟩ [sphere1] 0).map
      (fun o => o.stats.map (fun t => (t.Rej, t.AvgRjCostS))) =
    some [(0, (none : Option ℚ))] := by
  norm_num [runBench, runCorpus, runFn, trialsLoop, runTrial, trialStart,
    innerLoop, stepOnce, stepN, drawSigns, getMinValues, getMaxValues,
    optcost, fnStats, accUpdate, emptyAcc, safeDiv, unitModel, sphere1,
    bestAt]

/-- C2 (amended): the divisions of tester.h lines 253-254 carry no guard:
whenever the reject count is zero, avgCostOnReject is the undefined
(non-finite) result of dividing the reject cost sum by zero, and whenever
the success count iterCount - rejectCount is zero, avgCostOnSuccess is
likewise undefined; no sentinel value is substituted for either. -/
theorem c2_unguarded_divisions (msqrt : ℚ → ℚ) (iterC : ℕ) (acc : FnAcc) :
    (acc.Rej = 0 → (fnStats msqrt iterC acc).AvgRjCostS = none) ∧
    (iterC ≤ acc.Rej → (fnStats msqrt iterC acc).AvgCostS = none) := by
  constructor
  · intro h
    rw [fnStats_AvgRjCostS, h]
    simp [safeDiv]
  · intro h
    rw [fnStats_AvgCostS]
    have h0 : iterC - acc.Rej = 0 := by omega
    rw [h0]
    simp [safeDiv]

/-- Witness for the amended C2: with zero rejects the reject-cost average
is undefined. -/
theorem c2_witness :
    (fnStats (fun q => q) 1 emptyAcc).AvgRjCostS = none :=
  (c2_unguarded_divisions (fun q => q) 1 emptyAcc).1 rfl

/-- C3 is refuted: a run whose only function has resolved dimensionality 0
(Dims = 0 with defaultDims = 0) does not fail before any trial: the
optimizer is initialized and stepped (the final step counter is 1) and the
per-function statistics are computed (the statistics list has one entry). -/
theorem c3_counterexample :
    (runBench unitModel ⟨0, 1, 1, 1, false⟩ [sphereVar] 0).map
      (fun o => (o.fin.sc, o.stats.length)) = some (1, 1) := by
  norm_num [runBench, runCorpus, runFn, trialsLoop, runTrial, trialStart,
    innerLoop, stepOnce, stepN, drawSigns, getMinValues, getMaxValues,
    optcost, fnStats, accUpdate, emptyAcc, safeDiv, unitModel, sphereVar,
    sphere1, bestAt]

/-- C3 (amended): CTester performs no configuration validation at all. For
any corpus and configuration with innerIterCount at least 1 the run
completes and computes statistics: an empty corpus yields a completed run
whose aggregate statistics are the undefined (non-finite) results of
dividing by the zero function count; a zero iterCount still computes every
function's statistics, which take the sentinel iteration average and an
undefined success-cost average; and a function with resolved
dimensionality 0 is processed like any other (its trials initialize and
step the optimizer, as the refutation above shows). -/
theorem c3_no_validation {σ : Type} (M : OptModel σ) (cfg : Cfg)
    (corpus : List CTestFn) (rc0 : ℕ) (h : 1 ≤ cfg.InnerIterCount) :
    (∃ out, runBench M cfg corpus rc0 = some out) ∧
    (runBench M cfg [] rc0 =
      some ⟨[], none, none, none, 0, ⟨rc0, 0, 0⟩⟩) ∧
    (cfg.IterCount = 0 →
      ∀ out, runBench M cfg corpus rc0 = some out →
        ∀ fs ∈ out.stats, fs.Avg = 1000000 ∧ fs.AvgCostS = none) := by
  refine ⟨?_, rfl, ?_⟩
  · obtain ⟨sts, s', hc, _, _⟩ := runCorpus_props M cfg h corpus ⟨rc0, 0, 0⟩
      (ticksOK_start M rc0)
    exact ⟨_, by rw [runBench_def, hc]⟩
  · intro h0 out hout fs hfs
    rw [runBench_def] at hout
    cases hc : runCorpus M cfg corpus ⟨rc0, 0, 0⟩ with
    | none => rw [hc] at hout; cases hout
    | some r =>
      obtain ⟨sts, s'⟩ := r
      rw [hc] at hout
      dsimp only at hout
      injection hout with hout
      have hstats : out.stats = sts := by rw [← hout]
      rw [hstats] at hfs
      have hfs2 := runCorpus_iterZero M cfg h0 corpus ⟨rc0, 0, 0⟩ sts s' hc
        fs hfs
      subst hfs2
      constructor
      · exact (fnStats_sentinel M.msqrt 0 emptyAcc (by simp [emptyAcc])).1
      · rw [fnStats_AvgCostS]
        simp [emptyAcc, safeDiv]

/-- Witness for the amended C3: the empty-corpus run completes with
undefined aggregates instead of failing. -/
theorem c3_witness :
    runBench unitModel ⟨1, 1, 1, 1, false⟩ [] 0 =
      some ⟨[], none, none, none, 0, ⟨0, 0, 0⟩⟩ :=
  (c3_no_validation unitModel ⟨1, 1, 1, 1, false⟩ [] 0 (le_refl 1)).2.1

/-- C4: if a function's reject count reaches the trial count, its
avgIterations and rmsIterations are both the sentinel 1,000,000; and in a
run in which the reported best cost never comes within the (for instance
negative) costThreshold of the known optimum for any corpus function,
every function rejects every trial, carries the sentinel statistics, and
the aggregate average also equals 1,000,000. -/
theorem c4_sentinel {σ : Type} (M : OptModel σ) (cfg : Cfg)
    (corpus : List CTestFn) (rc0 : ℕ) (iterC : ℕ) (acc : FnAcc)
    (h1 : 1 ≤ cfg.InnerIterCount) (h2 : corpus ≠ [])
    (hfail : ∀ fn ∈ corpus, ∀ st : σ,
      ¬(M.obest st - fn.OptValue < cfg.CostThreshold)) :
    (iterC ≤ acc.Rej →
      (fnStats M.msqrt iterC acc).Avg = 1000000 ∧
      (fnStats M.msqrt iterC acc).RMS = 1000000) ∧
    ∃ out, runBench M cfg corpus rc0 = some out ∧
      (∀ fs ∈ out.stats, fs.Rej = cfg.IterCount ∧ fs.Avg = 1000000 ∧
        fs.RMS = 1000000) ∧
      out.ItAvg = some 1000000 := by
  obtain ⟨sts, s', hc, hlen, hall⟩ := runCorpus_fail_stats M cfg h1 corpus
    ⟨rc0, 0, 0⟩ hfail
  refine ⟨fun hle => fnStats_sentinel M.msqrt iterC acc hle,
    _, by rw [runBench_def, hc], fun fs hfs => hall fs hfs, ?_⟩
  show safeDiv (sts.foldl (fun r t => r + t.Avg) 0) sts.length =
    some 1000000
  have hlpos : sts.length ≠ 0 := by
    rw [hlen]
    intro hh
    exact h2 (List.length_eq_zero.mp hh)
  rw [foldl_add_map,
    map_sum_const (fun t => t.Avg) 1000000 sts (fun fs hfs => (hall fs hfs).2.1)]
  unfold safeDiv
  rw [if_neg hlpos, zero_add,
    mul_div_cancel_left₀ _ (Nat.cast_ne_zero.mpr hlpos : (sts.length : ℚ) ≠ 0)]

/-- Witness for C4: an optimizer stuck at cost 1 against an unreachable
negative threshold yields the sentinel aggregate. -/
theorem c4_witness :
    (runBench stuckModel ⟨1, -1, 1, 1, false⟩ [sphere1] 0).map
      (fun o => o.ItAvg) = some (some 1000000) := by
  obtain ⟨_, ⟨out, hout, _, hIt⟩⟩ :=
    c4_sentinel stuckModel ⟨1, -1, 1, 1, false⟩ [sphere1] 0 0 emptyAcc
      (le_refl 1) (by simp)
      (by
        intro fn hfn st
        have hfn2 : fn = sphere1 := by simpa using hfn
        subst hfn2
        norm_num [stuckModel, sphere1])
  rw [hout]
  simp [hIt]

/-- C8: the aggregate statistics are the arithmetic means, over the corpus,
of each function's avgIterations, of each function's rmsIterations /
avgIterations ratio, and of each function's rejectRate, together with the
accumulated tick total over every optimizer step of the run (mod 2^64);
the mean ranges over every function's statistics record, so a total-failure
function contributes its sentinel avgIterations instead of being
excluded. -/
theorem c8_aggregate {σ : Type} (M : OptModel σ) (cfg : Cfg)
    (corpus : List CTestFn) (rc0 : ℕ) (h1 : 1 ≤ cfg.InnerIterCount)
    (h2 : corpus ≠ []) :
    ∃ out, runBench M cfg corpus rc0 = some out ∧
      out.stats.length = corpus.length ∧
      out.ItAvg = some ((out.stats.map (fun t => t.Avg)).sum /
        (out.stats.length : ℚ)) ∧
      out.ItRtAvg = some ((out.stats.map (fun t => t.RMS / t.Avg)).sum /
        (out.stats.length : ℚ)) ∧
      out.RjAvg = some ((out.stats.map (fun t => t.RejRate)).sum /
        (out.stats.length : ℚ)) ∧
      out.tc = (∑ n ∈ Finset.range out.fin.sc, M.tk n) % 2 ^ 64 := by
  obtain ⟨sts, s', hc, hlen, hts⟩ := runCorpus_props M cfg h1 corpus
    ⟨rc0, 0, 0⟩ (ticksOK_start M rc0)
  have hlpos : sts.length ≠ 0 := by
    rw [hlen]
    intro hh
    exact h2 (List.length_eq_zero.mp hh)
  refine ⟨_, by rw [runBench_def, hc], ?_, ?_, ?_, ?_, ?_⟩
  · show sts.length = corpus.length
    exact hlen
  · show safeDiv (sts.foldl (fun r t => r + t.Avg) 0) sts.length =
      some ((sts.map (fun t => t.Avg)).sum / (sts.length : ℚ))
    unfold safeDiv
    rw [if_neg hlpos, foldl_add_map, zero_add]
  · show safeDiv (sts.foldl (fun r t => r + t.RMS / t.Avg) 0) sts.length =
      some ((sts.map (fun t => t.RMS / t.Avg)).sum / (sts.length : ℚ))
    unfold safeDiv
    rw [if_neg hlpos, foldl_add_map, zero_add]
  · show safeDiv (sts.foldl (fun r t => r + t.RejRate) 0) sts.length =
      some ((sts.map (fun t => t.RejRate)).sum / (sts.length : ℚ))
    unfold safeDiv
    rw [if_neg hlpos, foldl_add_map, zero_add]
  · show s'.tc = (∑ n ∈ Finset.range s'.sc, M.tk n) % 2 ^ 64
    exact hts

/-- Witness for C8 at a concrete instance: the one-function corpus yields
one statistics record. -/
theorem c8_witness :
    (runBench unitModel ⟨1, 1, 1, 1, false⟩ [sphere1] 0).map
      (fun o => o.stats.length) = some 1 := by
  obtain ⟨out, hout, hlen, _⟩ :=
    c8_aggregate unitModel ⟨1, 1, 1, 1, false⟩ [sphere1] 0 (le_refl 1)
      (by simp)
  rw [hout]
  simp [hlen]

/-- C10: with iterCount and innerIterCount at least 1, every one of the
iterCount trials of a function records exactly one outcome in the Iters
array — a success step count in [1, innerIterCount] or -1 for a reject,
with the reject count equal to the number of -1 entries — so successes and
rejects partition the trials and the reject rate lies in [0, 1]. -/
theorem c10_trial_outcomes {σ : Type} (M : OptModel σ) (cfg : Cfg)
    (fn : CTestFn) (s : RunSt) (h1 : 1 ≤ cfg.IterCount)
    (h2 : 1 ≤ cfg.InnerIterCount) :
    ∃ fs s', runFn M cfg fn s = some (fs, s') ∧
      fs.Iters.length = cfg.IterCount ∧
      (∀ v ∈ fs.Iters, v = -1 ∨ (1 ≤ v ∧ v ≤ (cfg.InnerIterCount : ℤ))) ∧
      fs.Rej = (fs.Iters.filter (fun v => decide (v < 0))).length ∧
      (fs.Iters.filter (fun v => decide (0 ≤ v))).length + fs.Rej =
        cfg.IterCount ∧
      fs.Rej ≤ cfg.IterCount ∧
      0 ≤ fs.RejRate ∧ fs.RejRate ≤ 1 := by
  obtain ⟨acc', s', hl, hlen, hg, hr⟩ := trialsLoop_iters M cfg.DoRandomize
    fn (if fn.Dims = 0 then cfg.DefDims else fn.Dims)
    (List.replicate (if fn.Dims = 0 then cfg.DefDims else fn.Dims) (1 : ℚ))
    cfg.CostThreshold cfg.InnerIterCount h2 cfg.IterCount emptyAcc s
    (by simp [emptyAcc]) (by simp [emptyAcc])
  have hlen2 : acc'.Iters.length = cfg.IterCount := by
    rw [hlen]
    simp [emptyAcc]
  have hsplit := filter_length_split acc'.Iters
  have hrle : acc'.Rej ≤ cfg.IterCount := by
    rw [hr]
    calc (acc'.Iters.filter (fun v => decide (v < 0))).length
        ≤ acc'.Iters.length := List.length_filter_le _ _
      _ = cfg.IterCount := hlen2
  refine ⟨fnStats M.msqrt cfg.IterCount acc', s',
    by rw [runFn_def, hl], ?_, ?_, ?_, ?_, ?_, ?_, ?_⟩
  · rw [fnStats_Iters]
    exact hlen2
  · rw [fnStats_Iters]
    exact hg
  · rw [fnStats_Rej, fnStats_Iters]
    exact hr
  · rw [fnStats_Rej, fnStats_Iters]
    omega
  · rw [fnStats_Rej]
    exact hrle
  · rw [fnStats_RejRate]
    positivity
  · rw [fnStats_RejRate]
    rw [div_le_one (by exact_mod_cast lt_of_lt_of_le Nat.zero_lt_one h1)]
    exact_mod_cast hrle

/-- Witness for C10 at a concrete instance: the one-trial run of sphere1
terminates with statistics. -/
theorem c10_witness :
    (runFn unitModel ⟨1, 1, 1, 1, false⟩ sphere1 ⟨0, 0, 0⟩).isSome =
      true := by
  obtain ⟨fs, s', hl, _⟩ :=
    c10_trial_outcomes unitModel ⟨1, 1, 1, 1, false⟩ sphere1 ⟨0, 0, 0⟩
      (le_refl 1) (le_refl 1)
  rw [hl]
  rfl
